import Mathlib

/-!
# MegEngine: graph optimisation options, receiver info and graph contracts

A shallow embedding of parts of `src/core/include/megbrain/graph/cg.h` and of
the helpers of `src/gopt/test/inference.cpp`:

* `GraphCommonOptimizeOptions` with its six boolean flags, the
  `LayoutTransform` enumeration and the setters generated by the two `SET`
  definitions of the header;
* `ComputingGraph::VarReceiverInfo` with `empty`, `value_needed` and
  `is_empty_allowed`;
* `ComputingGraph::Options` with its default member initialisers;
* the test helpers `find_opr`, `find_opr_num` and the counter of the test
  `concatbypass`;
* `custom::DType::is_compatible`, `custom::Tensor::data` and
  `custom::Tensor::accessor` of `src/custom/include/megbrain/custom/tensor.h`;
* the `dt_int32` instantiations of `FuseMulAdd3Op` of
  `dnn/src/x86/elemwise_helper/kimpl/fuse_mul_add3.h`.

Code of the repository that these files only declare or call (operator
insertion, the dependency iterator, the pass framework, dynamic allocation with
defragmentation, layout conversion, channel padding and the static memory
planner) is modelled from the specification; each such definition says so.

A failed `mgb_assert` is an `Except.error`; a member function that mutates
`*this` and returns a reference to it is a function from the old value to
the new one.
-/

/-! ## Definitions -/

namespace mgb

/-- Errors raised by the embedded code; `mgb_assert` raises `AssertionError`, a
failed device memory allocation raises `MemAllocError`. -/
inductive MegBrainError where
  | AssertionError
  | MemAllocError
deriving DecidableEq

/-- The check `mgb_assert(cond)`: returns normally when `cond` holds, raises otherwise. -/
def mgb_assert (cond : Bool) : Except MegBrainError Unit :=
  if cond then .ok () else .error .AssertionError

namespace cg

/-- The enumeration `GraphCommonOptimizeOptions::LayoutTransform` (cg.h, lines 105-118). -/
inductive LayoutTransform where
  | DEFAULT
  | NCHW4
  | NHWCD4
  | NCHW88
  | NCHW44
  | NCHW44_DOT
  | NCHW32
  | CHWN4
  | NCHW64
deriving DecidableEq

/-- The struct `GraphCommonOptimizeOptions` (cg.h, lines 89-119) with its default
member initialisers. -/
structure GraphCommonOptimizeOptions where
  f16_io_f32_comp : Bool := false
  f16_io_comp : Bool := false
  fuse_conv_bias_nonlinearity : Bool := false
  fuse_conv_bias_with_z : Bool := false
  weight_preprocess : Bool := false
  fuse_preprocess : Bool := false
  layout_transform : LayoutTransform := LayoutTransform.DEFAULT
deriving DecidableEq

namespace GraphCommonOptimizeOptions

/-! ### `SET(n)` for the boolean flags (cg.h, lines 121-137) -/

/-- Expansion of `SET(f16_io_f32_comp)`: the enabling setter. -/
def enable_f16_io_f32_comp (o : GraphCommonOptimizeOptions) : GraphCommonOptimizeOptions :=
  { o with f16_io_f32_comp := true }

/-- Expansion of `SET(f16_io_f32_comp)`: the disabling setter. -/
def disable_f16_io_f32_comp (o : GraphCommonOptimizeOptions) : GraphCommonOptimizeOptions :=
  { o with f16_io_f32_comp := false }

/-- Expansion of `SET(f16_io_f32_comp)`: the query `n == true`. -/
def has_set_f16_io_f32_comp (o : GraphCommonOptimizeOptions) : Bool :=
  o.f16_io_f32_comp == true

/-- Expansion of `SET(f16_io_comp)`: the enabling setter. -/
def enable_f16_io_comp (o : GraphCommonOptimizeOptions) : GraphCommonOptimizeOptions :=
  { o with f16_io_comp := true }

/-- Expansion of `SET(f16_io_comp)`: the disabling setter. -/
def disable_f16_io_comp (o : GraphCommonOptimizeOptions) : GraphCommonOptimizeOptions :=
  { o with f16_io_comp := false }

/-- Expansion of `SET(f16_io_comp)`: the query `n == true`. -/
def has_set_f16_io_comp (o : GraphCommonOptimizeOptions) : Bool :=
  o.f16_io_comp == true

/-- Expansion of `SET(fuse_conv_bias_nonlinearity)`: the enabling setter. -/
def enable_fuse_conv_bias_nonlinearity (o : GraphCommonOptimizeOptions) :
    GraphCommonOptimizeOptions :=
  { o with fuse_conv_bias_nonlinearity := true }

/-- Expansion of `SET(fuse_conv_bias_nonlinearity)`: the disabling setter. -/
def disable_fuse_conv_bias_nonlinearity (o : GraphCommonOptimizeOptions) :
    GraphCommonOptimizeOptions :=
  { o with fuse_conv_bias_nonlinearity := false }

/-- Expansion of `SET(fuse_conv_bias_nonlinearity)`: the query `n == true`. -/
def has_set_fuse_conv_bias_nonlinearity (o : GraphCommonOptimizeOptions) : Bool :=
  o.fuse_conv_bias_nonlinearity == true

/-- Expansion of `SET(fuse_conv_bias_with_z)`: the enabling setter. -/
def enable_fuse_conv_bias_with_z (o : GraphCommonOptimizeOptions) : GraphCommonOptimizeOptions :=
  { o with fuse_conv_bias_with_z := true }

/-- Expansion of `SET(fuse_conv_bias_with_z)`: the disabling setter. -/
def disable_fuse_conv_bias_with_z (o : GraphCommonOptimizeOptions) : GraphCommonOptimizeOptions :=
  { o with fuse_conv_bias_with_z := false }

/-- Expansion of `SET(fuse_conv_bias_with_z)`: the query `n == true`. -/
def has_set_fuse_conv_bias_with_z (o : GraphCommonOptimizeOptions) : Bool :=
  o.fuse_conv_bias_with_z == true

/-- Expansion of `SET(fuse_preprocess)`: the enabling setter. -/
def enable_fuse_preprocess (o : GraphCommonOptimizeOptions) : GraphCommonOptimizeOptions :=
  { o with fuse_preprocess := true }

/-- Expansion of `SET(fuse_preprocess)`: the disabling setter. -/
def disable_fuse_preprocess (o : GraphCommonOptimizeOptions) : GraphCommonOptimizeOptions :=
  { o with fuse_preprocess := false }

/-- Expansion of `SET(fuse_preprocess)`: the query `n == true`. -/
def has_set_fuse_preprocess (o : GraphCommonOptimizeOptions) : Bool :=
  o.fuse_preprocess == true

/-- Expansion of `SET(weight_preprocess)`: the enabling setter. -/
def enable_weight_preprocess (o : GraphCommonOptimizeOptions) : GraphCommonOptimizeOptions :=
  { o with weight_preprocess := true }

/-- Expansion of `SET(weight_preprocess)`: the disabling setter. -/
def disable_weight_preprocess (o : GraphCommonOptimizeOptions) : GraphCommonOptimizeOptions :=
  { o with weight_preprocess := false }

/-- Expansion of `SET(weight_preprocess)`: the query `n == true`. -/
def has_set_weight_preprocess (o : GraphCommonOptimizeOptions) : Bool :=
  o.weight_preprocess == true

/-! ### `SET(_trans, _trans_capital)` for the layouts (cg.h, lines 139-160) -/

/-- Body of `enable_##_trans()`: assert that no layout is selected, then select
`_trans_capital`. -/
def SET_enable (_trans_capital : LayoutTransform) (o : GraphCommonOptimizeOptions) :
    Except MegBrainError GraphCommonOptimizeOptions := do
  mgb_assert (o.layout_transform == LayoutTransform.DEFAULT)
  return { o with layout_transform := _trans_capital }

/-- Body of `disable_##_trans()`: reset the selection to `DEFAULT`. -/
def SET_disable (o : GraphCommonOptimizeOptions) : GraphCommonOptimizeOptions :=
  { o with layout_transform := LayoutTransform.DEFAULT }

/-- Body of `has_set_##_trans()`: compare the selection with `_trans_capital`. -/
def SET_has_set (_trans_capital : LayoutTransform) (o : GraphCommonOptimizeOptions) : Bool :=
  o.layout_transform == _trans_capital

/-- Expansion of `SET(nchw4, NCHW4)`. -/
def enable_nchw4 := SET_enable LayoutTransform.NCHW4
/-- Expansion of `SET(nchw4, NCHW4)`. -/
def disable_nchw4 := SET_disable
/-- Expansion of `SET(nchw4, NCHW4)`. -/
def has_set_nchw4 := SET_has_set LayoutTransform.NCHW4

/-- Expansion of `SET(nhwcd4, NHWCD4)`. -/
def enable_nhwcd4 := SET_enable LayoutTransform.NHWCD4
/-- Expansion of `SET(nhwcd4, NHWCD4)`. -/
def disable_nhwcd4 := SET_disable
/-- Expansion of `SET(nhwcd4, NHWCD4)`. -/
def has_set_nhwcd4 := SET_has_set LayoutTransform.NHWCD4

/-- Expansion of `SET(nchw88, NCHW88)`. -/
def enable_nchw88 := SET_enable LayoutTransform.NCHW88
/-- Expansion of `SET(nchw88, NCHW88)`. -/
def disable_nchw88 := SET_disable
/-- Expansion of `SET(nchw88, NCHW88)`. -/
def has_set_nchw88 := SET_has_set LayoutTransform.NCHW88

/-- Expansion of `SET(nchw44, NCHW44)`. -/
def enable_nchw44 := SET_enable LayoutTransform.NCHW44
/-- Expansion of `SET(nchw44, NCHW44)`. -/
def disable_nchw44 := SET_disable
/-- Expansion of `SET(nchw44, NCHW44)`. -/
def has_set_nchw44 := SET_has_set LayoutTransform.NCHW44

/-- Expansion of `SET(nchw44_dot, NCHW44_DOT)`. -/
def enable_nchw44_dot := SET_enable LayoutTransform.NCHW44_DOT
/-- Expansion of `SET(nchw44_dot, NCHW44_DOT)`. -/
def disable_nchw44_dot := SET_disable
/-- Expansion of `SET(nchw44_dot, NCHW44_DOT)`. -/
def has_set_nchw44_dot := SET_has_set LayoutTransform.NCHW44_DOT

/-- Expansion of `SET(nchw32, NCHW32)`. -/
def enable_nchw32 := SET_enable LayoutTransform.NCHW32
/-- Expansion of `SET(nchw32, NCHW32)`. -/
def disable_nchw32 := SET_disable
/-- Expansion of `SET(nchw32, NCHW32)`. -/
def has_set_nchw32 := SET_has_set LayoutTransform.NCHW32

/-- Expansion of `SET(chwn4, CHWN4)`. -/
def enable_chwn4 := SET_enable LayoutTransform.CHWN4
/-- Expansion of `SET(chwn4, CHWN4)`. -/
def disable_chwn4 := SET_disable
/-- Expansion of `SET(chwn4, CHWN4)`. -/
def has_set_chwn4 := SET_has_set LayoutTransform.CHWN4

/-- Expansion of `SET(nchw64, NCHW64)`. -/
def enable_nchw64 := SET_enable LayoutTransform.NCHW64
/-- Expansion of `SET(nchw64, NCHW64)`. -/
def disable_nchw64 := SET_disable
/-- Expansion of `SET(nchw64, NCHW64)`. -/
def has_set_nchw64 := SET_has_set LayoutTransform.NCHW64

end GraphCommonOptimizeOptions

open GraphCommonOptimizeOptions

/-! ### Names of the generated member functions -/

/-- The six names `n` for which the header instantiates `SET(n)`. -/
inductive BoolFlag where
  | f16_io_f32_comp
  | f16_io_comp
  | fuse_conv_bias_nonlinearity
  | fuse_conv_bias_with_z
  | fuse_preprocess
  | weight_preprocess
deriving DecidableEq

/-- The eight names `_trans` for which the header instantiates
`SET(_trans, _trans_capital)`. -/
inductive LayoutFormat where
  | nchw4
  | nhwcd4
  | nchw88
  | nchw44
  | nchw44_dot
  | nchw32
  | chwn4
  | nchw64
deriving DecidableEq

namespace BoolFlag

/-- The member function `enable_n` for the flag named `n`. -/
def enable : BoolFlag → GraphCommonOptimizeOptions → GraphCommonOptimizeOptions
  | f16_io_f32_comp => enable_f16_io_f32_comp
  | f16_io_comp => enable_f16_io_comp
  | fuse_conv_bias_nonlinearity => enable_fuse_conv_bias_nonlinearity
  | fuse_conv_bias_with_z => enable_fuse_conv_bias_with_z
  | fuse_preprocess => enable_fuse_preprocess
  | weight_preprocess => enable_weight_preprocess

/-- The member function `disable_n` for the flag named `n`. -/
def disable : BoolFlag → GraphCommonOptimizeOptions → GraphCommonOptimizeOptions
  | f16_io_f32_comp => disable_f16_io_f32_comp
  | f16_io_comp => disable_f16_io_comp
  | fuse_conv_bias_nonlinearity => disable_fuse_conv_bias_nonlinearity
  | fuse_conv_bias_with_z => disable_fuse_conv_bias_with_z
  | fuse_preprocess => disable_fuse_preprocess
  | weight_preprocess => disable_weight_preprocess

/-- The member function `has_set_n` for the flag named `n`. -/
def has_set : BoolFlag → GraphCommonOptimizeOptions → Bool
  | f16_io_f32_comp => has_set_f16_io_f32_comp
  | f16_io_comp => has_set_f16_io_comp
  | fuse_conv_bias_nonlinearity => has_set_fuse_conv_bias_nonlinearity
  | fuse_conv_bias_with_z => has_set_fuse_conv_bias_with_z
  | fuse_preprocess => has_set_fuse_preprocess
  | weight_preprocess => has_set_weight_preprocess

/-- The data member named `n`. -/
def field : BoolFlag → GraphCommonOptimizeOptions → Bool
  | f16_io_f32_comp => GraphCommonOptimizeOptions.f16_io_f32_comp
  | f16_io_comp => GraphCommonOptimizeOptions.f16_io_comp
  | fuse_conv_bias_nonlinearity => GraphCommonOptimizeOptions.fuse_conv_bias_nonlinearity
  | fuse_conv_bias_with_z => GraphCommonOptimizeOptions.fuse_conv_bias_with_z
  | fuse_preprocess => GraphCommonOptimizeOptions.fuse_preprocess
  | weight_preprocess => GraphCommonOptimizeOptions.weight_preprocess

end BoolFlag

namespace LayoutFormat

/-- The enumerator `_trans_capital` paired with `_trans` in the header. -/
def capital : LayoutFormat → LayoutTransform
  | nchw4 => LayoutTransform.NCHW4
  | nhwcd4 => LayoutTransform.NHWCD4
  | nchw88 => LayoutTransform.NCHW88
  | nchw44 => LayoutTransform.NCHW44
  | nchw44_dot => LayoutTransform.NCHW44_DOT
  | nchw32 => LayoutTransform.NCHW32
  | chwn4 => LayoutTransform.CHWN4
  | nchw64 => LayoutTransform.NCHW64

/-- The member function `enable_<fmt>` for the layout named `fmt`. -/
def enable : LayoutFormat → GraphCommonOptimizeOptions →
    Except MegBrainError GraphCommonOptimizeOptions
  | nchw4 => enable_nchw4
  | nhwcd4 => enable_nhwcd4
  | nchw88 => enable_nchw88
  | nchw44 => enable_nchw44
  | nchw44_dot => enable_nchw44_dot
  | nchw32 => enable_nchw32
  | chwn4 => enable_chwn4
  | nchw64 => enable_nchw64

/-- The member function `disable_<fmt>` for the layout named `fmt`. -/
def disable : LayoutFormat → GraphCommonOptimizeOptions → GraphCommonOptimizeOptions
  | nchw4 => disable_nchw4
  | nhwcd4 => disable_nhwcd4
  | nchw88 => disable_nchw88
  | nchw44 => disable_nchw44
  | nchw44_dot => disable_nchw44_dot
  | nchw32 => disable_nchw32
  | chwn4 => disable_chwn4
  | nchw64 => disable_nchw64

/-- The member function `has_set_<fmt>` for the layout named `fmt`. -/
def has_set : LayoutFormat → GraphCommonOptimizeOptions → Bool
  | nchw4 => has_set_nchw4
  | nhwcd4 => has_set_nhwcd4
  | nchw88 => has_set_nchw88
  | nchw44 => has_set_nchw44
  | nchw44_dot => has_set_nchw44_dot
  | nchw32 => has_set_nchw32
  | chwn4 => has_set_chwn4
  | nchw64 => has_set_nchw64

end LayoutFormat

/-- Any one of the 28 generated `enable_*` / `disable_*` member functions. -/
inductive Setter where
  | enable_flag (n : BoolFlag)
  | disable_flag (n : BoolFlag)
  | enable_layout (f : LayoutFormat)
  | disable_layout (f : LayoutFormat)
deriving DecidableEq

/-- Calling a setter: the new options value, or the error it raises. -/
def Setter.call : Setter → GraphCommonOptimizeOptions →
    Except MegBrainError GraphCommonOptimizeOptions
  | enable_flag n, o => .ok (n.enable o)
  | disable_flag n, o => .ok (n.disable o)
  | enable_layout f, o => f.enable o
  | disable_layout f, o => .ok (f.disable o)

/-- The results of the eight layout queries, in the order of the header. -/
def layout_queries (o : GraphCommonOptimizeOptions) : List Bool :=
  [has_set_nchw4 o, has_set_nhwcd4 o, has_set_nchw88 o, has_set_nchw44 o,
   has_set_nchw44_dot o, has_set_nchw32 o, has_set_chwn4 o, has_set_nchw64 o]

/-- The results of the six boolean-flag queries, in the order of the header. -/
def flag_queries (o : GraphCommonOptimizeOptions) : List Bool :=
  [has_set_f16_io_f32_comp o, has_set_f16_io_comp o, has_set_fuse_conv_bias_nonlinearity o,
   has_set_fuse_conv_bias_with_z o, has_set_fuse_preprocess o, has_set_weight_preprocess o]

/-- At most one layout query answers true, and none does exactly when the
selection is `DEFAULT`. -/
def single_layout (o : GraphCommonOptimizeOptions) : Prop :=
  (layout_queries o).count true ≤ 1 ∧
    ((∀ b ∈ layout_queries o, b = false) ↔ o.layout_transform = LayoutTransform.DEFAULT)

instance (o : GraphCommonOptimizeOptions) : Decidable (single_layout o) :=
  inferInstanceAs (Decidable (_ ∧ _))

/-- The six boolean flags of two options values coincide. -/
def same_flags (o o' : GraphCommonOptimizeOptions) : Prop :=
  o'.f16_io_f32_comp = o.f16_io_f32_comp ∧ o'.f16_io_comp = o.f16_io_comp ∧
  o'.fuse_conv_bias_nonlinearity = o.fuse_conv_bias_nonlinearity ∧
  o'.fuse_conv_bias_with_z = o.fuse_conv_bias_with_z ∧
  o'.weight_preprocess = o.weight_preprocess ∧ o'.fuse_preprocess = o.fuse_preprocess

instance (o o' : GraphCommonOptimizeOptions) : Decidable (same_flags o o') :=
  inferInstanceAs (Decidable (_ ∧ _))

/-! ### `ComputingGraph::VarReceiverInfo` (cg.h, lines 663-700) -/

/-- Number of values of the unsigned type `size_t` (64 bits wide). -/
def size_t_range : Nat := 2 ^ 64

/-- Contextual conversion of a `size_t` to `bool`: true exactly for non-zero. -/
def size_t_to_bool (n : Nat) : Bool := n != 0

namespace ComputingGraph

/-- The struct `ComputingGraph::VarReceiverInfo` with its default member
initialisers; the operator pointer is an optional operator id (`nullptr` is
`none`). -/
structure VarReceiverInfo where
  nr_direct_comp_req : Nat := 0
  dev_value : Nat := 0
  last_dev_value_reader : Option Nat := none
  shape : Nat := 0
  host_value : Nat := 0
  allow_empty_value : Nat := 0
deriving DecidableEq

namespace VarReceiverInfo

/-- Whether nothing is needed completely. -/
def empty (v : VarReceiverInfo) : Bool :=
  !size_t_to_bool v.nr_direct_comp_req && !size_t_to_bool v.dev_value &&
    !size_t_to_bool v.shape && !size_t_to_bool v.host_value

/-- Whether computing value is needed. -/
def value_needed (v : VarReceiverInfo) : Bool :=
  size_t_to_bool v.dev_value || size_t_to_bool v.shape || size_t_to_bool v.host_value

/-- Whether this var can be empty; the sum is taken in `size_t` arithmetic. -/
def is_empty_allowed (v : VarReceiverInfo) : Bool :=
  v.allow_empty_value == (v.host_value + v.dev_value) % size_t_range

end VarReceiverInfo
end ComputingGraph

end cg
end mgb

/-! ### `ComputingGraph::Options` (cg.h, lines 301-551) -/

namespace mgb
namespace cg
namespace ComputingGraph
namespace Options

/-- The struct `Options::OprAttribute`; the set of operators is a list of operator ids. -/
structure OprAttribute where
  sublinear_memory_endpoint : List Nat := []

/-- The struct `Options::SeqOpt`: sequence compile optimization options. -/
structure SeqOpt where
  enable_mem_plan_opt : Bool := true
  enable_mem_reuse_alloc : Bool := true
  enable_seq_comp_node_opt : Bool := true
deriving DecidableEq

namespace GraphOpt

/-- The constant `JITConfig::UNSET`. -/
def JITConfig.UNSET : Int := 0
/-- The constant `JITConfig::OFF`. -/
def JITConfig.OFF : Int := 1
/-- The constant `JITConfig::ON`. -/
def JITConfig.ON : Int := 2

/-- The struct `GraphOpt::JITConfig` with its default member initialisers. -/
structure JITConfig where
  fuse_dimshuffle : Int := JITConfig.UNSET
  fuse_reduce : Int := JITConfig.UNSET
deriving DecidableEq

end GraphOpt

/-- The struct `Options::GraphOpt`, derived from `GraphCommonOptimizeOptions`. -/
structure GraphOpt extends GraphCommonOptimizeOptions where
  jit : Nat := 0
  jit_config : GraphOpt.JITConfig := {}
  tensorrt : Bool := false
deriving DecidableEq

/-- The struct `Options::SublinearMemConfig`; `num_worker` is initialised from
`sys::get_cpu_count() / 2`, so it has no literal default here. -/
structure SublinearMemConfig where
  thresh_nr_try : Int := 10
  genetic_nr_iter : Int := 0
  genetic_pool_size : Int := 20
  lb_memory_mb : Int := 0
  num_worker : Int
deriving DecidableEq

/-- The struct `Options::DTRConfig`; `evictee_minimum_size` is `1ULL << 20`. -/
structure DTRConfig where
  eviction_threshold : Nat := 0
  evictee_minimum_size : Nat := 1 <<< 20
  recomp_memory_factor : Float := 1
  recomp_time_factor : Float := 1

/-- The struct `Options::FastRunConfig`. -/
structure FastRunConfig where
  shared_batch_size : Nat := 0
  binary_equal_between_batch : Bool := false
deriving DecidableEq

end Options

/-- The struct `ComputingGraph::Options` with its default member initialisers, in
the order of the header. Pointers to operators and vars are ids; the
`user_data` container carries no default state and is left out. -/
structure Options where
  opr_attribute : Options.OprAttribute := {}
  seq_opt : Options.SeqOpt := {}
  graph_opt : Options.GraphOpt := {}
  graph_opt_level : Int := 2
  disable_inplace_arith_opt : Bool := false
  allreduce_pack_max_size : Int := 0
  allreduce_pack_ignore_first : Int := 2
  log_level : Nat := 1
  async_exec_level : Nat := 1
  force_dynamic_alloc : Bool := false
  force_output_dynamic_alloc : Bool := false
  force_output_use_user_specified_memory : Bool := false
  var_sanity_check_first_run : Bool := true
  allocate_static_mem_after_graph_compile : Bool := false
  fake_next_exec : Bool := false
  enable_sublinear_memory_opt : Bool := false
  sublinear_mem_config : Options.SublinearMemConfig
  enable_dtr_memory_opt : Bool := false
  dtr_config : Options.DTRConfig := {}
  no_profiling_on_shape_change : Bool := false
  enable_var_mem_defragment : Bool := true
  enable_grad_var_static_reshape : Bool := false
  enable_memory_swap : Bool := false
  comp_node_seq_record_level : Nat := 0
  eager_evaluation : Bool := false
  imperative_proxy_graph : Bool := false
  no_force_inplace : Bool := false
  comp_seq_sync_device : Bool := true
  extra_vardeps : List (Nat × List Nat) := []
  fast_run_config : Options.FastRunConfig := {}

/-- Default construction of `ComputingGraph::Options`; the result of
`sys::get_cpu_count()` is the parameter `cpu_count`. -/
def Options.default_constructed (cpu_count : Nat) : Options :=
  { sublinear_mem_config := { num_worker := (cpu_count : Int) / 2 } }

end ComputingGraph
end cg
end mgb

/-! ### Operator graph, `insert_opr` and `DepOprIter`

`OperatorNodeBase`, `VarNode`, the implementation of `insert_opr` and the class
`DepOprIter` are declared outside the files embedded here; they follow the
data model and contracts of the specification. Operators are referred to by
their position in the graph-owned store. -/

namespace mgb
namespace cg

/-- Modelled from the spec: a `VarNode`, one produced value, identified by its
owning operator and its position among that operator's outputs. -/
structure VarNode where
  owner_opr : Nat
  index : Nat := 0
deriving DecidableEq

/-- Modelled from the spec: an `OperatorNode` with a type tag, a human-readable
name, an ordered list of input `VarNode` references and a parameter value. -/
structure OperatorNodeBase where
  type : Nat
  name : String := ""
  input : List VarNode := []
  param : Nat := 0
deriving DecidableEq

/-- Modelled from the spec: `same_type<T>()`, comparison of the type tag. -/
def OperatorNodeBase.same_type (opr : OperatorNodeBase) (T : Nat) : Bool :=
  opr.type == T

/-- Modelled from the spec: structural equality of operators, as used for
deduplication: same type, same inputs, same parameter. -/
def OperatorNodeBase.structurally_equal (a b : OperatorNodeBase) : Bool :=
  a.type == b.type && a.input == b.input && a.param == b.param

/-- Modelled from the spec: the operators owned by a `ComputingGraph`, in
insertion order; an operator is referred to by its position. -/
structure OprStore where
  oprs : List OperatorNodeBase := []
deriving DecidableEq

namespace OprStore

/-- Modelled from the spec: the owning operators of the inputs of operator `i`
(none for an unknown id). -/
def producers (g : OprStore) (i : Nat) : List Nat :=
  match g.oprs[i]? with
  | some opr => opr.input.map VarNode.owner_opr
  | none => []

/-- Whether every input of the operators `l`, stored from position `i` on, is
produced by an operator at an earlier position. -/
def inputs_precede : Nat → List OperatorNodeBase → Bool
  | _, [] => true
  | i, opr :: rest =>
    opr.input.all (fun v => decide (v.owner_opr < i)) && inputs_precede (i + 1) rest

/-- A store is acyclic by construction when every operator only references
operators inserted before it. -/
def acyclic (g : OprStore) : Bool := inputs_precede 0 g.oprs

/-- Whether no two stored operators are structurally equal. -/
def deduplicated (g : OprStore) : Prop :=
  g.oprs.Pairwise (fun a b => a.structurally_equal b = false)

instance (g : OprStore) : Decidable g.deduplicated :=
  inferInstanceAs (Decidable (List.Pairwise _ _))

/-- Modelled from the spec: `ComputingGraph::insert_opr`. The inputs must
already exist in the graph (an assertion-style check); when a structurally
identical operator exists, that operator is returned and the graph is left as
it is, otherwise the operator is stored and its new position returned. -/
def insert_opr (g : OprStore) (opr : OperatorNodeBase) :
    Except MegBrainError (Nat × OprStore) := do
  mgb_assert (opr.input.all (fun v => decide (v.owner_opr < g.oprs.length)))
  match g.oprs.findIdx? (fun old => old.structurally_equal opr) with
  | some i => return (i, g)
  | none => return (g.oprs.length, { oprs := g.oprs ++ [opr] })

/-- Modelled from the spec: operator `j` contributes (transitively, through
input edges) to computing `e`: it is reached from `e` by following input edges
zero or more times. -/
inductive Contributes (g : OprStore) (e : Nat) : Nat → Prop where
  | refl : Contributes g e e
  | step {j k : Nat} : Contributes g e j → k ∈ g.producers j → Contributes g e k

end OprStore

namespace DepOprIter

/-- Modelled from the spec: the traversal of `DepOprIter`, post-order over
dependencies with a visited set. `done` holds the operators on which the
visitor has been invoked, most recent first; an operator already in it is
skipped, otherwise its inputs are traversed in order and then the operator is
finalized. The first argument bounds the depth of the traversal. -/
def visit (g : OprStore) : Nat → List Nat → Nat → List Nat
  | 0, done, _ => done
  | depth + 1, done, opr =>
    if opr ∈ done then done
    else opr :: (g.producers opr).foldl (visit g depth) done

/-- A list of finalized operators, most recent first, is in dependency order:
no operator occurs twice and the producers of the inputs of each operator were
finalized before it. -/
def dependency_ordered (g : OprStore) : List Nat → Prop
  | [] => True
  | i :: l => i ∉ l ∧ (∀ k ∈ g.producers i, k ∈ l) ∧ dependency_ordered g l

/-- Modelled from the spec: the operators on which `DepOprIter{cb}.add(dest)`
invokes the visitor, in the order of invocation. No dependency chain that
starts at `dest` is longer than `dest + 1` in an acyclic store. -/
def order (g : OprStore) (dest : Nat) : List Nat :=
  (visit g (dest + 1) [] dest).reverse

/-- Modelled from the spec: `DepOprIter{cb}.add(dest)` with a visitor `cb` that
updates the state it captured by reference, starting from `init`. -/
def add {σ : Type} (cb : σ → Nat → σ) (init : σ) (g : OprStore) (dest : Nat) : σ :=
  (order g dest).foldl cb init

end DepOprIter

/-- The test helper `find_opr_num<T>` (inference.cpp, lines 76-86): the visitor
increments `opr_num` on every operator of type `T`; the endpoint is given with
the store that owns it. -/
def find_opr_num (g : OprStore) (T : Nat) (endpoint : VarNode) : Nat :=
  DepOprIter.add
    (fun opr_num opr =>
      match g.oprs[opr]? with
      | some o => if o.same_type T then opr_num + 1 else opr_num
      | none => opr_num)
    0 g endpoint.owner_opr

end cg
end mgb

/-! ### Rewrite pass framework and dynamic allocation retry

`gopt::GraphOptimizer`, its passes and the code that calls
`DeviceMemoryAllocator::alloc_dynamic` live outside the files embedded here;
they follow the contracts of the specification. -/

namespace mgb
namespace gopt

open mgb.cg

/-- Modelled from the spec: a rewrite `Pass`. Applied to the current endpoint
set it returns a replacement mapping from old to new variables (the identity
on variables it does not replace). -/
structure Pass where
  apply : List VarNode → VarNode → VarNode

/-- Modelled from the spec: the state of one optimizer run, the running mapping
from a requested endpoint to its current representative and the current
endpoint set. -/
structure OptState where
  mapping : VarNode → VarNode
  endpoints : List VarNode

/-- Modelled from the spec: `OptState::endpoint_vars()`, the current endpoints. -/
def OptState.endpoint_vars (st : OptState) : List VarNode := st.endpoints

/-- Modelled from the spec: `gopt::GraphOptimizer`, an ordered list of passes. -/
structure GraphOptimizer where
  passes : List Pass := []

namespace GraphOptimizer

/-- Modelled from the spec: `add_pass`, appending a pass to the pipeline. -/
def add_pass (opt : GraphOptimizer) (p : Pass) : GraphOptimizer :=
  { passes := opt.passes ++ [p] }

/-- Modelled from the spec: one step of the run. The pass is invoked on the
current endpoint set, its mapping is merged into the running mapping by
composition, and the endpoint set becomes the mapped values. -/
def run_pass (st : OptState) (p : Pass) : OptState :=
  { mapping := p.apply st.endpoints ∘ st.mapping,
    endpoints := st.endpoints.map (p.apply st.endpoints) }

/-- Modelled from the spec: `GraphOptimizer::apply`. The running mapping starts
as the identity over the requested endpoints; the passes run in order. -/
def apply (opt : GraphOptimizer) (requested : List VarNode) : OptState :=
  opt.passes.foldl run_pass { mapping := id, endpoints := requested }

end GraphOptimizer
end gopt

namespace cg

/-- Modelled from the spec: what a request for dynamic storage did, a call of
`alloc_dynamic` with its outcome or a run of the defragmenter. -/
inductive AllocEvent where
  | alloc_dynamic (succeeded : Bool)
  | defragment
deriving DecidableEq

/-- Modelled from the spec: a simulated device memory allocator over a memory
state `σ`. `alloc_dynamic` either provides storage (`true`) or raises
`MemAllocError` (`false`); `defragment` compacts the live dynamic storage. -/
structure SimulatedAllocator (σ : Type) where
  alloc_dynamic : σ → Bool × σ
  defragment : σ → σ

/-- Modelled from the spec: the device memory as a request sees it, the memory
state together with the record of the allocator calls made on it, in order. -/
structure TracedMemory (σ : Type) where
  state : σ
  events : List AllocEvent := []

/-- Modelled from the spec: a call of `alloc_dynamic` on the device memory. The
call changes the memory state and is recorded with its outcome. -/
def SimulatedAllocator.call_alloc_dynamic {σ : Type} (allocator : SimulatedAllocator σ)
    (m : TracedMemory σ) : Bool × TracedMemory σ :=
  ((allocator.alloc_dynamic m.state).1,
    { state := (allocator.alloc_dynamic m.state).2,
      events := m.events ++ [AllocEvent.alloc_dynamic (allocator.alloc_dynamic m.state).1] })

/-- Modelled from the spec: a run of the defragmenter on the device memory. The
run changes the memory state and is recorded. -/
def SimulatedAllocator.call_defragment {σ : Type} (allocator : SimulatedAllocator σ)
    (m : TracedMemory σ) : TracedMemory σ :=
  { state := allocator.defragment m.state, events := m.events ++ [AllocEvent.defragment] }

/-- Modelled from the spec: outcome of a request for dynamic storage, the
result and the device memory after the request. -/
structure AllocOutcome (σ : Type) where
  result : Except MegBrainError Unit
  memory : TracedMemory σ

/-- The memory state after a request. -/
def AllocOutcome.state {σ : Type} (o : AllocOutcome σ) : σ := o.memory.state

/-- The allocator calls made by a request, in order. -/
def AllocOutcome.events {σ : Type} (o : AllocOutcome σ) : List AllocEvent := o.memory.events

/-- Modelled from the spec: serving one request for dynamic storage of a
variable, starting from the memory state `s` with an empty record. When
`alloc_dynamic` fails and `enable_var_mem_defragment` is set, the defragmenter
is invoked and the allocation is retried exactly once; a failure that remains
is surfaced as a fatal allocation error. The memory is touched only through
the recorded calls. -/
def alloc_var_dynamic {σ : Type} (options : ComputingGraph.Options)
    (allocator : SimulatedAllocator σ) (s : σ) : AllocOutcome σ :=
  let first := allocator.call_alloc_dynamic { state := s }
  if first.1 then
    { result := .ok (), memory := first.2 }
  else if options.enable_var_mem_defragment then
    let retry := allocator.call_alloc_dynamic (allocator.call_defragment first.2)
    if retry.1 then
      { result := .ok (), memory := retry.2 }
    else
      { result := .error .MemAllocError, memory := retry.2 }
  else
    { result := .error .MemAllocError, memory := first.2 }

/-- Number of calls of `alloc_dynamic` among the events of a request. -/
def nr_alloc_calls (events : List AllocEvent) : Nat :=
  (events.filter (fun e => e != AllocEvent.defragment)).length

/-- Number of runs of the defragmenter among the events of a request. -/
def nr_defragment (events : List AllocEvent) : Nat :=
  (events.filter (fun e => e == AllocEvent.defragment)).length

end cg
end mgb

/-! ### Channel padding

`gopt::PaddingChannelPass` and the convolution operators are outside the files
embedded here; the model follows the specification of the layout conversion
passes (channel padding with zero weights and biases, output sliced back). -/

namespace mgb
namespace gopt

/-- Modelled from the spec: the value read from channel `c` of a tensor, given
as the list of its channels, at an optional position; a missing position stands
for the zero border and a missing channel reads as zero. -/
def read_channel {P : Type} (x : List (P → Int)) (c : Nat) : Option P → Int
  | some q =>
    match x[c]? with
    | some channel => channel q
    | none => 0
  | none => 0

/-- Modelled from the spec: a convolution with bias and nonlinearity over the
channel axis. `weight o c k` is the weight of output channel `o`, input channel
`c` and kernel element `k`; `sample k p` is the input position that kernel
element `k` reads for output position `p`; the nonlinearity includes the
conversion to the output data type. -/
structure ConvBias (P K : Type) where
  in_channels : Nat
  out_channels : Nat
  weight : Nat → Nat → K → Int
  bias : Nat → Int
  kernel : List K
  sample : K → P → Option P
  nonlinearity : Int → Int

/-- Modelled from the spec: the result of a convolution, one channel per output
channel, reducing over the input channels and the kernel elements. -/
def ConvBias.exec {P K : Type} (cv : ConvBias P K) (x : List (P → Int)) : List (P → Int) :=
  (List.range cv.out_channels).map fun o p =>
    cv.nonlinearity (cv.bias o +
      (Finset.range cv.in_channels).sum fun c =>
        (cv.kernel.map fun k => cv.weight o c k * read_channel x c (cv.sample k p)).sum)

/-- Modelled from the spec: a chain of convolutions, each reading the result of
its predecessor. -/
def exec_chain {P K : Type} (layers : List (ConvBias P K)) (x : List (P → Int)) :
    List (P → Int) :=
  layers.foldl (fun t cv => cv.exec t) x

/-- Whether each convolution of a chain expects as many input channels as its
predecessor (or the input, which has `c` channels) provides. -/
def chain_valid {P K : Type} : Nat → List (ConvBias P K) → Bool
  | _, [] => true
  | c, cv :: rest => cv.in_channels == c && chain_valid cv.out_channels rest

/-- Number of channels at the end of a chain whose input has `c` channels. -/
def chain_channels {P K : Type} (layers : List (ConvBias P K)) (c : Nat) : Nat :=
  layers.foldl (fun _ cv => cv.out_channels) c

namespace PaddingChannelPass

/-- Modelled from the spec: a tensor padded with zero channels up to `n` channels. -/
def pad_tensor {P : Type} (n : Nat) (x : List (P → Int)) : List (P → Int) :=
  x ++ List.replicate (n - x.length) (fun _ => 0)

/-- Modelled from the spec: a convolution with its channel counts padded by the
alignment rule `padded`; the added weight and bias channels are zero. -/
def pad_conv {P K : Type} (padded : Nat → Nat) (cv : ConvBias P K) : ConvBias P K :=
  { cv with
    in_channels := padded cv.in_channels
    out_channels := padded cv.out_channels
    weight := fun o c k =>
      if o < cv.out_channels ∧ c < cv.in_channels then cv.weight o c k else 0
    bias := fun o => if o < cv.out_channels then cv.bias o else 0 }

/-- Modelled from the spec: the rewritten chain. The input is padded with zero
channels, every convolution is replaced by its padded version, and the output
is sliced back to the channel count of the original endpoint. -/
def apply {P K : Type} (padded : Nat → Nat) (layers : List (ConvBias P K))
    (x : List (P → Int)) : List (P → Int) :=
  (exec_chain (layers.map (pad_conv padded)) (pad_tensor (padded x.length) x)).take
    (chain_channels layers x.length)

end PaddingChannelPass

end gopt
end mgb

/-! ### Layout conversion

The passes behind `gopt::optimize_for_inference` are outside the files embedded
here; the model follows the specification of the layout/format conversion
passes and of the constant fusion pass. The counting of the test `concatbypass`
is taken from inference.cpp. -/

namespace mgb
namespace gopt

open mgb.cg

/-- Modelled from the spec: the classification of an operator with respect to
the target layout: layout-aware (native implementation for the target format),
layout-oblivious (format-agnostic, can be bypassed) or neither. -/
inductive LayoutClass where
  | aware
  | oblivious
  | other
deriving DecidableEq

/-- Modelled from the spec: an input of a rewritten operator: the variable
itself, the output of a relayout (format conversion) operator inserted on that
variable, or the constant operator that holds the precomputed relayout of a
compile-time constant variable. Relayout operators are identified by the
variable they convert, so equal conversions of one variable are one operator. -/
inductive ConvertedInput where
  | direct (v : VarNode)
  | relayout_format (v : VarNode)
  | constant (v : VarNode)
deriving DecidableEq

/-- Modelled from the spec: whether an input is produced by a relayout operator. -/
def ConvertedInput.is_relayout_format : ConvertedInput → Bool
  | .direct _ => false
  | .relayout_format _ => true
  | .constant _ => false

/-- Modelled from the spec: an operator of the rewritten graph, standing at the
position of the operator it replaces, with the format it computes in. -/
structure ConvertedOpr where
  type : Nat
  name : String
  param : Nat
  format : LayoutTransform
  input : List ConvertedInput
deriving DecidableEq

/-- Modelled from the spec: the format of a variable of the rewritten graph
(default for an unknown one). -/
def var_format (done : List ConvertedOpr) (v : VarNode) : LayoutTransform :=
  match done[v.owner_opr]? with
  | some c => c.format
  | none => LayoutTransform.DEFAULT

/-- Modelled from the spec: rewriting one operator, given the rewritten
operators before it. A layout-aware operator runs in the target format; a
layout-oblivious operator is bypassed (joins the island) when all its inputs
are in the target format; any other operator stays in the default format. A
relayout is inserted on exactly those inputs whose format differs from the
format the operator runs in, that is where an island edge crosses into or out
of the default layout. -/
def convert_opr (classify : OperatorNodeBase → LayoutClass) (target : LayoutTransform)
    (done : List ConvertedOpr) (opr : OperatorNodeBase) : ConvertedOpr :=
  let format :=
    match classify opr with
    | .aware => target
    | .oblivious =>
      if !opr.input.isEmpty && opr.input.all (fun v => var_format done v == target)
      then target else LayoutTransform.DEFAULT
    | .other => LayoutTransform.DEFAULT
  { type := opr.type, name := opr.name, param := opr.param, format := format,
    input := opr.input.map fun v =>
      if var_format done v == format then .direct v else .relayout_format v }

/-- Modelled from the spec: the layout conversion pass, walking the operators in
dependency order. -/
def convert_format (classify : OperatorNodeBase → LayoutClass) (target : LayoutTransform)
    (oprs : List OperatorNodeBase) (done : List ConvertedOpr) : List ConvertedOpr :=
  oprs.foldl (fun d opr => d ++ [convert_opr classify target d opr]) done

/-- Modelled from the spec: whether a variable is a compile-time constant, that
is produced by a constant operator (an immutable tensor or a shared device
tensor parameter), as told by `is_constant`. -/
def is_constant_var (is_constant : OperatorNodeBase → Bool) (g : OprStore) (v : VarNode) :
    Bool :=
  match g.oprs[v.owner_opr]? with
  | some opr => is_constant opr
  | none => false

/-- Modelled from the spec: constant fusion on one input. A relayout whose only
leaf is a compile-time constant (such as the relayout of a convolution weight)
is evaluated once, outside the execution path, and replaced by a constant
operator that holds the result; every other input is left as it is. -/
def fuse_constant_input (is_constant : OperatorNodeBase → Bool) (g : OprStore) :
    ConvertedInput → ConvertedInput
  | .relayout_format v =>
    if is_constant_var is_constant g v then .constant v else .relayout_format v
  | .direct v => .direct v
  | .constant v => .constant v

/-- Modelled from the spec: constant fusion on the inputs of one operator. -/
def param_fuse_opr (is_constant : OperatorNodeBase → Bool) (g : OprStore)
    (opr : ConvertedOpr) : ConvertedOpr :=
  { opr with input := opr.input.map (fuse_constant_input is_constant g) }

/-- Modelled from the spec: the constant fusion pass on the rewritten graph. -/
def param_fuse (is_constant : OperatorNodeBase → Bool) (g : OprStore)
    (oprs : List ConvertedOpr) : List ConvertedOpr :=
  oprs.map (param_fuse_opr is_constant g)

/-- Modelled from the spec: `optimize_for_inference` restricted to layout
conversion, followed by constant fusion; the target is the layout selected in
the options. -/
def optimize_for_inference (classify : OperatorNodeBase → LayoutClass)
    (is_constant : OperatorNodeBase → Bool) (options : GraphCommonOptimizeOptions)
    (g : OprStore) : List ConvertedOpr :=
  param_fuse is_constant g (convert_format classify options.layout_transform g.oprs [])

/-- The body of the visitor of the test `concatbypass` (inference.cpp, lines
1615-1626) on one operator: the number of inputs produced by a relayout
operator when the operator is a convolution, else nothing. -/
def relayout_format_inputs (Convolution : Nat) (opr : ConvertedOpr) : Nat :=
  if opr.type = Convolution
  then (opr.input.filter ConvertedInput.is_relayout_format).length else 0

/-- The counter of the test `concatbypass` (inference.cpp, lines 1615-1627): the
number of inputs of convolutions that are produced by a relayout operator. -/
def relayout_format_nr (Convolution : Nat) (oprs : List ConvertedOpr) : Nat :=
  oprs.foldl
    (fun nr opr =>
      if opr.type == Convolution then
        opr.input.foldl (fun n input => if input.is_relayout_format then n + 1 else n) nr
      else nr)
    0

/-- A chain of sequential stages in a store, given by the positions of the
stages, the first of which reads the operator at position `prev`. Every stage
is either a convolution (layout-aware; its inputs are the previous stage as the
one data input and otherwise compile-time constants such as the weight) or a
bypassable concatenation (layout-oblivious, all of its inputs being the
previous stage). -/
def sequential_chain (classify : OperatorNodeBase → LayoutClass)
    (is_constant : OperatorNodeBase → Bool) (Convolution : Nat) (g : OprStore) :
    Nat → List Nat → Bool
  | _, [] => true
  | prev, p :: rest =>
    (match g.oprs[p]? with
      | some opr =>
        (match classify opr with
          | .aware => opr.type == Convolution &&
              (opr.input.filter fun v => !is_constant_var is_constant g v).length == 1 &&
              opr.input.all (fun v => is_constant_var is_constant g v || v.owner_opr == prev)
          | .oblivious => opr.type != Convolution && !opr.input.isEmpty &&
              opr.input.all (fun v => v.owner_opr == prev)
          | .other => false)
      | none => false) &&
    sequential_chain classify is_constant Convolution g p rest

/-- The graph built by the test `concatbypass` (inference.cpp, lines 1583-1610),
operators in creation order. Type tags: 0 `Host2DeviceCopy`, 1
`SharedDeviceTensor`, 2 `Convolution`, 3 `Concat`, 4 `GetVarShape`, 5 `Resize`.
Positions: 0 `inp1`, 1 `inp2`, 2 `tmp`, 3 `shape_of`, 4 `resize`, 5 `concat`,
6 `w1`, 7 `w2`, then the four convolutions (8, 10, 12, 14) interleaved with the
three concatenations (9, 11, 13). -/
def concatbypass_graph : OprStore :=
  { oprs :=
      [{ type := 0 }, { type := 0 }, { type := 1, name := "tmp" },
       { type := 4, input := [{ owner_opr := 2 }] },
       { type := 5, input := [{ owner_opr := 0 }, { owner_opr := 3 }] },
       { type := 3, input := [{ owner_opr := 1 }, { owner_opr := 4 }], param := 1 },
       { type := 1, name := "w1" }, { type := 1, name := "w1", param := 1 },
       { type := 2, input := [{ owner_opr := 5 }, { owner_opr := 6 }] },
       { type := 3, input := [{ owner_opr := 8 }, { owner_opr := 8 }], param := 0 },
       { type := 2, input := [{ owner_opr := 9 }, { owner_opr := 6 }] },
       { type := 3, input := [{ owner_opr := 10 }, { owner_opr := 10 }], param := 1 },
       { type := 2, input := [{ owner_opr := 11 }, { owner_opr := 7 }] },
       { type := 3, input := [{ owner_opr := 12 }, { owner_opr := 12 }], param := 2 },
       { type := 2, input := [{ owner_opr := 13 }, { owner_opr := 6 }] }] }

/-- The classification used for `concatbypass_graph`: convolutions are
layout-aware, concatenations layout-oblivious, everything else keeps the
default layout. -/
def concatbypass_classify (opr : OperatorNodeBase) : LayoutClass :=
  if opr.type = 2 then .aware else if opr.type = 3 then .oblivious else .other

/-- The compile-time constants of `concatbypass_graph`: the
`SharedDeviceTensor` operators made by `mkcvar`. -/
def concatbypass_is_constant (opr : OperatorNodeBase) : Bool :=
  opr.type == 1

end gopt
end mgb

/-! ### `custom::DType` and `custom::Tensor` (custom/tensor.h) -/

namespace custom

/-- The C types that may instantiate a template parameter: the fixed-width and
built-in scalar types, and any other object type given by an identity and its
size in bytes. -/
inductive CType where
  | bool
  | char
  | int8_t
  | uint8_t
  | int16_t
  | uint16_t
  | int32_t
  | uint32_t
  | int64_t
  | uint64_t
  | float
  | double
  | other (id : Nat) (size : Nat)
deriving DecidableEq

/-- The operator `sizeof` on the modelled C types. -/
def sizeof : CType → Nat
  | .bool => 1
  | .char => 1
  | .int8_t => 1
  | .uint8_t => 1
  | .int16_t => 2
  | .uint16_t => 2
  | .int32_t => 4
  | .uint32_t => 4
  | .int64_t => 8
  | .uint64_t => 8
  | .float => 4
  | .double => 8
  | .other _ size => size

/-- A template argument `T`: a C type with const and reference qualifiers. -/
structure QualType where
  base : CType
  is_const : Bool := false
  is_reference : Bool := false
deriving DecidableEq

/-- The trait `std::decay<T>::type`: the qualifiers are dropped. -/
def decay (T : QualType) : CType := T.base

/-- The trait `std::is_same<A, B>::value`. -/
def is_same (A B : CType) : Bool := A == B

/-- The alias `using float16_t = uint16_t`. -/
def float16_t : CType := CType.uint16_t

/-- The alias `using bfloat16_t = uint16_t`. -/
def bfloat16_t : CType := CType.uint16_t

/-- The names `custom_type` of the table `CUSTOM_FOR_EACH_TENSOR_DATA_TYPE`, the
enumerators of `DType::DTypeEnum`. -/
inductive DTypeEnum where
  | float32
  | uint8
  | int8
  | int16
  | int32
  | float16
  | bfloat16
  | uint16
  | quint8
  | qint32
  | qint8
  | qint16
deriving DecidableEq

/-- The wrapper `fp16_wrap(cb, custom_dtype, dnn_dtype, c_dtype)`: the row is
dropped when `MEGDNN_DISABLE_FLOAT16` is set. -/
def fp16_wrap (MEGDNN_DISABLE_FLOAT16 : Bool) (row : DTypeEnum × CType) :
    List (DTypeEnum × CType) :=
  if MEGDNN_DISABLE_FLOAT16 then [] else [row]

/-- The table `CUSTOM_FOR_EACH_TENSOR_DATA_TYPE(cb)`: the rows
`(custom_type, ctype)` in the order of the header (the builtin type name of a row
plays no part here). -/
def CUSTOM_FOR_EACH_TENSOR_DATA_TYPE (MEGDNN_DISABLE_FLOAT16 : Bool) :
    List (DTypeEnum × CType) :=
  [(.float32, .float), (.uint8, .uint8_t), (.int8, .int8_t), (.int16, .int16_t),
   (.int32, .int32_t)] ++
  fp16_wrap MEGDNN_DISABLE_FLOAT16 (.float16, float16_t) ++
  fp16_wrap MEGDNN_DISABLE_FLOAT16 (.bfloat16, bfloat16_t) ++
  [(.uint16, .uint16_t), (.quint8, .uint8_t), (.qint32, .int32_t), (.qint8, .int8_t),
   (.qint16, .int16_t)]

/-- Whether an enumerator is declared in `DTypeEnum` under the configuration. -/
def DTypeEnum.declared (MEGDNN_DISABLE_FLOAT16 : Bool) (e : DTypeEnum) : Bool :=
  ((CUSTOM_FOR_EACH_TENSOR_DATA_TYPE MEGDNN_DISABLE_FLOAT16).map Prod.fst).contains e

/-- The case label of the `switch` in `is_compatible` that an enumerator
reaches, with the C type compared there; `none` is the `default` label. -/
def switch_case (MEGDNN_DISABLE_FLOAT16 : Bool) (dtype_enum : DTypeEnum) : Option CType :=
  (CUSTOM_FOR_EACH_TENSOR_DATA_TYPE MEGDNN_DISABLE_FLOAT16).lookup dtype_enum

/-- The class `DType`, reduced to what `enumv()` returns. -/
structure DType where
  enumv : DTypeEnum
deriving DecidableEq

/-- The member template `DType::is_compatible<T>()` (tensor.h, lines 159-175). -/
def DType.is_compatible (MEGDNN_DISABLE_FLOAT16 : Bool) (self : DType) (T : QualType) : Bool :=
  let DecayT := decay T
  let dtype_enum := self.enumv
  if !MEGDNN_DISABLE_FLOAT16 && dtype_enum == DTypeEnum.float16 then
    sizeof DecayT == sizeof float16_t
  else if !MEGDNN_DISABLE_FLOAT16 && dtype_enum == DTypeEnum.bfloat16 then
    sizeof DecayT == sizeof bfloat16_t
  else
    match switch_case MEGDNN_DISABLE_FLOAT16 dtype_enum with
    | some ctype => is_same DecayT ctype
    | none => false

/-- Errors raised by the custom operator interface. -/
inductive CustomError where
  | assert_failed
deriving DecidableEq

/-- The check `custom_assert(cond, ...)`: raises when `cond` does not hold. -/
def custom_assert (cond : Bool) : Except CustomError Unit :=
  if cond then .ok () else .error .assert_failed

/-- A typed pointer `T*`: an address and the pointee type. -/
structure Pointer where
  address : Nat
  pointee : QualType
deriving DecidableEq

/-- The class `Tensor`, reduced to what `dtype()`, `shape()`, `shapes_raw()`,
`strides_raw()` and the untyped `data()` return; `shape().ndim()` is the length
of `shape`. -/
structure Tensor where
  dtype : DType
  shape : List Nat
  strides_raw : List Int
  data : Nat
deriving DecidableEq

/-- The class template `TensorAccessor<T, N, PtrTraits, index_t>`, declared in
accessor.h: the value is given by the template arguments `T`, `N` and the three
arguments of its constructor. -/
structure TensorAccessor where
  T : QualType
  N : Nat
  ptr : Pointer
  sizes : List Nat
  strides : List Int
deriving DecidableEq

namespace Tensor

/-- The member template `T* Tensor::data<T>()` (tensor.h, lines 246-252). -/
def data_as (MEGDNN_DISABLE_FLOAT16 : Bool) (self : Tensor) (T : QualType) :
    Except CustomError Pointer := do
  custom_assert (self.dtype.is_compatible MEGDNN_DISABLE_FLOAT16 T)
  return { address := self.data, pointee := T }

/-- The member template `const T* Tensor::data<T>() const`, which forwards to
the non-const overload. -/
def data_as_const (MEGDNN_DISABLE_FLOAT16 : Bool) (self : Tensor) (T : QualType) :
    Except CustomError Pointer := do
  let p ← data_as MEGDNN_DISABLE_FLOAT16 self T
  return { p with pointee := { p.pointee with is_const := true } }

/-- The member template `Tensor::accessor<T, N>()` (tensor.h, lines 263-273). -/
def accessor (MEGDNN_DISABLE_FLOAT16 : Bool) (self : Tensor) (T : QualType) (N : Nat) :
    Except CustomError TensorAccessor := do
  custom_assert (N == self.shape.length)
  custom_assert (decide (N > 0))
  let ptr ← data_as MEGDNN_DISABLE_FLOAT16 self T
  return { T := T, N := N, ptr := ptr, sizes := self.shape, strides := self.strides_raw }

/-- The member template `Tensor::accessor<T, N>() const`, which forwards to the
non-const overload. -/
def accessor_const (MEGDNN_DISABLE_FLOAT16 : Bool) (self : Tensor) (T : QualType) (N : Nat) :
    Except CustomError TensorAccessor :=
  accessor MEGDNN_DISABLE_FLOAT16 self T N

end Tensor
end custom

/-! ### `FuseMulAdd3Op` for `dt_int32` (dnn/src/x86/elemwise_helper/kimpl/fuse_mul_add3.h)

A SIMD register of 32-bit integers is the list of its lanes, lane 0 first; a
lane holds a signed 32-bit value. The intrinsics are compiler built-ins; their
definitions follow the instruction set reference. -/

namespace megdnn
namespace x86

/-- Reduction of an integer to the signed 32-bit value with the same low 32 bits. -/
def to_int32 (x : Int) : Int := (x + 2147483648) % 4294967296 - 2147483648

/-- The scalar `FuseMulAdd3OpBase<simd_type, dt_int32>::operator()`:
`return (src0 * src1) + src2;` in 32-bit arithmetic. -/
def FuseMulAdd3OpBase (src0 src1 src2 : Int) : Int :=
  to_int32 (to_int32 (src0 * src1) + src2)

/-- The instruction PADDD behind `_mm_add_epi32` and `_mm256_add_epi32`: the
packed 32-bit integers are added lane by lane. -/
def add_epi32 (a b : List Int) : List Int :=
  List.zipWith (fun x y => to_int32 (x + y)) a b

/-- The instruction PMULDQ behind `_mm_mul_epi32` and `_mm256_mul_epi32`: in
each packed 64-bit element the low signed 32-bit integers of `a` and `b` are
multiplied and the signed 64-bit product is stored, so it fills two 32-bit
lanes, low half first. -/
def mul_epi32 : List Int → List Int → List Int
  | a0 :: _ :: a, b0 :: _ :: b =>
    to_int32 (a0 * b0) :: to_int32 ((a0 * b0) / 4294967296) :: mul_epi32 a b
  | _, _ => []

/-- The intrinsic `_mm_mul_epi32` on `__m128i` (4 lanes). -/
def _mm_mul_epi32 (a b : List Int) : List Int := mul_epi32 a b
/-- The intrinsic `_mm_add_epi32` on `__m128i` (4 lanes). -/
def _mm_add_epi32 (a b : List Int) : List Int := add_epi32 a b
/-- The intrinsic `_mm256_mul_epi32` on `__m256i` (8 lanes). -/
def _mm256_mul_epi32 (a b : List Int) : List Int := mul_epi32 a b
/-- The intrinsic `_mm256_add_epi32` on `__m256i` (8 lanes). -/
def _mm256_add_epi32 (a b : List Int) : List Int := add_epi32 a b

namespace FuseMulAdd3Op

/-- Expansion of `OP(dt_int32, SIMDType::SSE4_2, ..., mm, epi32, si128, 4)`: the
constant `SIMD_WIDTH`. -/
def SSE4_2_dt_int32_SIMD_WIDTH : Nat := 4

/-- Expansion of `OP(dt_int32, SIMDType::SSE4_2, ..., mm, epi32, si128, 4)`: the
single-vector `operator()(src0, src1, src2)`. -/
def SSE4_2_dt_int32 (src0 src1 src2 : List Int) : List Int :=
  let vitem := _mm_mul_epi32 src0 src1
  _mm_add_epi32 src2 vitem

/-- Expansion of `OP(dt_int32, SIMDType::SSE4_2, ..., mm, epi32, si128, 4)`: the
`operator()` on pairs of vectors (`__m128ix2`). -/
def SSE4_2_dt_int32_x2 (src0 src1 src2 : List Int × List Int) : List Int × List Int :=
  let vitem0 := _mm_mul_epi32 src0.1 src1.1
  let vitem0 := _mm_add_epi32 src2.1 vitem0
  let vitem1 := _mm_mul_epi32 src0.2 src1.2
  let vitem1 := _mm_add_epi32 src2.2 vitem1
  (vitem0, vitem1)

/-- Expansion of `OP(dt_int32, SIMDType::AVX2, ..., mm256, epi32, si256, 8)`: the
constant `SIMD_WIDTH`. -/
def AVX2_dt_int32_SIMD_WIDTH : Nat := 8

/-- Expansion of `OP(dt_int32, SIMDType::AVX2, ..., mm256, epi32, si256, 8)`: the
single-vector `operator()(src0, src1, src2)`. -/
def AVX2_dt_int32 (src0 src1 src2 : List Int) : List Int :=
  let vitem := _mm256_mul_epi32 src0 src1
  _mm256_add_epi32 src2 vitem

/-- Expansion of `OP(dt_int32, SIMDType::AVX2, ..., mm256, epi32, si256, 8)`: the
`operator()` on pairs of vectors (`__m256ix2`). -/
def AVX2_dt_int32_x2 (src0 src1 src2 : List Int × List Int) : List Int × List Int :=
  let vitem0 := _mm256_mul_epi32 src0.1 src1.1
  let vitem0 := _mm256_add_epi32 src2.1 vitem0
  let vitem1 := _mm256_mul_epi32 src0.2 src1.2
  let vitem1 := _mm256_add_epi32 src2.2 vitem1
  (vitem0, vitem1)

end FuseMulAdd3Op

/-- The scalar kernel applied lane by lane, the reference for the SIMD kernels. -/
def scalar_lanes (src0 src1 src2 : List Int) : List Int :=
  List.zipWith (fun p s2 => FuseMulAdd3OpBase p.1 p.2 s2) (List.zip src0 src1) src2

end x86
end megdnn

/-! ### The test helpers `find_opr` (gopt/test/inference.cpp, lines 45-74) -/

namespace mgb
namespace cg

/-- The test helper `find_opr<T>(endpoint)`: the visitor keeps the first
operator of type `T`; the assertion fails when none was found. -/
def find_opr (g : OprStore) (T : Nat) (endpoint : VarNode) : Except MegBrainError Nat := do
  let found : Option Nat :=
    DepOprIter.add
      (fun found opr =>
        match g.oprs[opr]? with
        | some o => if found.isNone && o.same_type T then some opr else found
        | none => found)
      none g endpoint.owner_opr
  mgb_assert found.isSome
  return found.getD 0

/-- The test helper `find_opr<T>(endpoint, node_name)`: the visitor keeps the
first operator of type `T` whose name is `node_name`; the assertion fails when
none was found. -/
def find_opr_named (g : OprStore) (T : Nat) (endpoint : VarNode) (node_name : String) :
    Except MegBrainError Nat := do
  let found : Option Nat :=
    DepOprIter.add
      (fun found opr =>
        match g.oprs[opr]? with
        | some o =>
          if found.isNone && o.same_type T && o.name == node_name then some opr else found
        | none => found)
      none g endpoint.owner_opr
  mgb_assert found.isSome
  return found.getD 0

/-- Whether the operator with id `opr` exists in the store and has type `T`. -/
def OprStore.has_type (g : OprStore) (T : Nat) (opr : Nat) : Bool :=
  match g.oprs[opr]? with
  | some o => o.same_type T
  | none => false

/-- Whether the operator with id `opr` exists, has type `T` and the given name. -/
def OprStore.has_type_and_name (g : OprStore) (T : Nat) (node_name : String) (opr : Nat) :
    Bool :=
  match g.oprs[opr]? with
  | some o => o.same_type T && o.name == node_name
  | none => false

end cg
end mgb

/-! ### Static memory plan

The static memory planner is outside the files embedded here; the model
follows the data model and the memory planner contract of the specification.
The option that selects the reuse algorithm is
`ComputingGraph::Options::SeqOpt::enable_mem_reuse_alloc` of cg.h. -/

namespace mgb
namespace cg

/-- Modelled from the spec: a variable that requires static storage, with its
size in bytes and its liveness interval in the final operator order (position
of the producing operator, position of the last reader). -/
structure StaticVarReq where
  size : Nat
  first : Nat
  last : Nat
deriving DecidableEq

/-- Modelled from the spec: an entry of the allocation plan, a statically
allocated variable with its byte offset in the shared arena. -/
structure StaticVarPlan where
  var : StaticVarReq
  offset : Nat
deriving DecidableEq

/-- Modelled from the spec: whether the liveness intervals of two variables
overlap, that is share a position of the operator sequence. -/
def liveness_overlap (a b : StaticVarReq) : Bool :=
  decide (a.first ≤ b.last) && decide (b.first ≤ a.last)

/-- Modelled from the spec: whether the byte ranges of two plan entries overlap,
that is share a byte of the arena. -/
def range_overlap (a b : StaticVarPlan) : Bool :=
  decide (max a.offset b.offset < min (a.offset + a.var.size) (b.offset + b.var.size))

/-- Modelled from the spec: the size of the arena used by a plan. -/
def arena_size (plan : List StaticVarPlan) : Nat :=
  plan.foldl (fun top w => max top (w.offset + w.var.size)) 0

/-- Modelled from the spec: whether a variable can be placed at an offset, given
the entries placed so far: it may share bytes only with variables whose
liveness intervals are disjoint from its own. -/
def can_place (plan : List StaticVarPlan) (v : StaticVarReq) (offset : Nat) : Bool :=
  plan.all fun w =>
    !liveness_overlap v w.var || !range_overlap { var := v, offset := offset } w

/-- Modelled from the spec: the offset chosen for a variable by the reuse
algorithm: the first offset among 0 and the ends of the placed ranges at which
the variable can be placed, else the top of the arena. -/
def reuse_offset (plan : List StaticVarPlan) (v : StaticVarReq) : Nat :=
  match (0 :: plan.map fun w => w.offset + w.var.size).find? (can_place plan v) with
  | some offset => offset
  | none => arena_size plan

/-- Modelled from the spec: the static allocation plan for the variables of a
compiled operator sequence. With `enable_mem_reuse_alloc` the reuse algorithm
packs variables with disjoint lifetimes into shared offsets; without it every
variable gets a range of its own on top of the arena. -/
def plan_static_alloc (seq_opt : ComputingGraph.Options.SeqOpt)
    (vars : List StaticVarReq) : List StaticVarPlan :=
  vars.foldl
    (fun plan v =>
      plan ++ [{ var := v,
                 offset := if seq_opt.enable_mem_reuse_alloc then reuse_offset plan v
                   else arena_size plan }])
    []

end cg
end mgb

deriving instance DecidableEq for Except

/-! ## Theorems -/

open mgb mgb.cg mgb.cg.GraphCommonOptimizeOptions mgb.cg.ComputingGraph

/-- Every options value satisfies the single-layout invariant. -/
theorem single_layout_of_any (o : GraphCommonOptimizeOptions) : single_layout o := by
  obtain ⟨a, b, c, d, e, f, l⟩ := o
  cases l <;>
    simp [single_layout, layout_queries, has_set_nchw4, has_set_nhwcd4, has_set_nchw88,
      has_set_nchw44, has_set_nchw44_dot, has_set_nchw32, has_set_chwn4, has_set_nchw64,
      SET_has_set]

/-- A layout setter called on an options value whose selection is `DEFAULT`
returns the value with the selection replaced by its enumerator. -/
theorem enable_of_default (f : LayoutFormat) (o : GraphCommonOptimizeOptions)
    (h : o.layout_transform = LayoutTransform.DEFAULT) :
    f.enable o = .ok { o with layout_transform := f.capital } := by
  cases f <;>
    simp [LayoutFormat.enable, LayoutFormat.capital, enable_nchw4, enable_nhwcd4, enable_nchw88,
      enable_nchw44, enable_nchw44_dot, enable_nchw32, enable_chwn4, enable_nchw64, SET_enable,
      mgb_assert, h, bind, Except.bind, pure, Except.pure]

/-- A layout setter called on an options value whose selection is not `DEFAULT`
fails its assertion. -/
theorem enable_of_selected (f : LayoutFormat) (o : GraphCommonOptimizeOptions)
    (h : o.layout_transform ≠ LayoutTransform.DEFAULT) :
    f.enable o = .error MegBrainError.AssertionError := by
  cases f <;>
    simp [LayoutFormat.enable, enable_nchw4, enable_nhwcd4, enable_nchw88,
      enable_nchw44, enable_nchw44_dot, enable_nchw32, enable_chwn4, enable_nchw64, SET_enable,
      mgb_assert, h, bind, Except.bind]

/-- The query of a layout compares the selection with the enumerator of that layout. -/
theorem has_set_eq (f : LayoutFormat) (o : GraphCommonOptimizeOptions) :
    f.has_set o = (o.layout_transform == f.capital) := by
  cases f <;> rfl

/-- Every layout disabling setter resets the selection and keeps the rest. -/
theorem disable_eq (f : LayoutFormat) (o : GraphCommonOptimizeOptions) :
    f.disable o = { o with layout_transform := LayoutTransform.DEFAULT } := by
  cases f <;> rfl

/-- Distinct layout names have distinct enumerators, none of them `DEFAULT`. -/
theorem capital_injective (A B : LayoutFormat) :
    (A.capital = B.capital ↔ A = B) ∧ A.capital ≠ LayoutTransform.DEFAULT := by
  cases A <;> cases B <;> simp [LayoutFormat.capital]

/-- C1: for every options value at most one of the eight layout queries is true
and none is true exactly when `layout_transform` is `DEFAULT`; the same holds of
the value returned by any `enable_*` / `disable_*` call that returns. -/
theorem C1_single_layout_invariant (o : GraphCommonOptimizeOptions) :
    ((layout_queries o).count true ≤ 1 ∧
      ((∀ b ∈ layout_queries o, b = false) ↔ o.layout_transform = LayoutTransform.DEFAULT)) ∧
    ∀ (s : Setter) (o' : GraphCommonOptimizeOptions), s.call o = .ok o' →
      ((layout_queries o').count true ≤ 1 ∧
        ((∀ b ∈ layout_queries o', b = false) ↔
          o'.layout_transform = LayoutTransform.DEFAULT)) :=
  ⟨single_layout_of_any o, fun _ o' _ => single_layout_of_any o'⟩

/-- Witness of C1: `enable_nchw32` on the default options returns, and its result
satisfies the invariant. -/
theorem C1_single_layout_invariant_witness :
    Setter.call (Setter.enable_layout LayoutFormat.nchw32) {} =
        .ok { layout_transform := LayoutTransform.NCHW32 } ∧
      (layout_queries { layout_transform := LayoutTransform.NCHW32 }).count true ≤ 1 :=
  ⟨rfl, ((C1_single_layout_invariant {}).2 (Setter.enable_layout LayoutFormat.nchw32)
    { layout_transform := LayoutTransform.NCHW32 } rfl).1⟩

/-- Counterexample to C2 as stated: on the default options, `enable_nchw4()`
followed by `enable_nhwcd4()` raises the assertion error, so no options value
with `has_set_nhwcd4` true and `has_set_nchw4` false is produced. -/
theorem C2_counterexample :
    (enable_nchw4 {} >>= enable_nhwcd4) = .error MegBrainError.AssertionError ∧
      ¬ ∃ o' : GraphCommonOptimizeOptions, (enable_nchw4 {} >>= enable_nhwcd4) = .ok o' ∧
        has_set_nhwcd4 o' = true ∧ has_set_nchw4 o' = false := by
  have herr : (enable_nchw4 {} >>= enable_nhwcd4) = .error MegBrainError.AssertionError := rfl
  refine ⟨herr, ?_⟩
  rintro ⟨o', h, -⟩
  rw [herr] at h
  cases h

/-- C2 (amended): for distinct layouts A and B, `enable_A()` on the default
options succeeds and selects A; a following `enable_B()` fails its assertion
(A stays selected); after an intervening `disable_A()` the call `enable_B()`
raises no error and leaves `has_set_B` true and `has_set_A` false. -/
theorem C2_enable_second_layout (A B : LayoutFormat) (hAB : A ≠ B) :
    ∃ o1 : GraphCommonOptimizeOptions, A.enable {} = .ok o1 ∧
      A.has_set o1 = true ∧ B.has_set o1 = false ∧
      B.enable o1 = .error MegBrainError.AssertionError ∧
      ∃ o2 : GraphCommonOptimizeOptions, B.enable (A.disable o1) = .ok o2 ∧
        B.has_set o2 = true ∧ A.has_set o2 = false := by
  have hA := (capital_injective A B).2
  have hinj := (capital_injective A B).1
  have hinj2 := (capital_injective B A).1
  refine ⟨{ layout_transform := A.capital }, enable_of_default A _ rfl, ?_, ?_,
    enable_of_selected B _ hA, { layout_transform := B.capital }, ?_, ?_, ?_⟩
  · simp [has_set_eq]
  · simpa [has_set_eq, hinj] using hAB
  · rw [disable_eq]; exact enable_of_default B _ rfl
  · simp [has_set_eq]
  · simp only [has_set_eq, beq_eq_false_iff_ne, ne_eq, hinj2]
    exact fun h => hAB h.symm

/-- Witness of C2 (amended) at A = nchw4, B = nhwcd4. -/
theorem C2_enable_second_layout_witness :
    LayoutFormat.nchw4 ≠ LayoutFormat.nhwcd4 ∧
      ∃ o1 : GraphCommonOptimizeOptions, LayoutFormat.nchw4.enable {} = .ok o1 ∧
        LayoutFormat.nchw4.has_set o1 = true ∧ LayoutFormat.nhwcd4.has_set o1 = false ∧
        LayoutFormat.nhwcd4.enable o1 = .error MegBrainError.AssertionError ∧
        ∃ o2 : GraphCommonOptimizeOptions,
          LayoutFormat.nhwcd4.enable (LayoutFormat.nchw4.disable o1) = .ok o2 ∧
          LayoutFormat.nhwcd4.has_set o2 = true ∧ LayoutFormat.nchw4.has_set o2 = false :=
  ⟨by decide, C2_enable_second_layout LayoutFormat.nchw4 LayoutFormat.nhwcd4 (by decide)⟩

/-- C3: for distinct layouts A and B and every options value whose selection is
A, `enable_B()` fails its assertion and returns no options value (so none with
B selected). -/
theorem C3_second_layout_is_fatal (A B : LayoutFormat) (_hAB : A ≠ B)
    (o : GraphCommonOptimizeOptions) (h : o.layout_transform = A.capital) :
    B.enable o = .error MegBrainError.AssertionError ∧
      ¬ ∃ o' : GraphCommonOptimizeOptions, B.enable o = .ok o' := by
  have hne : o.layout_transform ≠ LayoutTransform.DEFAULT := by
    rw [h]; exact (capital_injective A B).2
  have herr := enable_of_selected B o hne
  refine ⟨herr, ?_⟩
  rintro ⟨o', h'⟩
  rw [herr] at h'
  exact absurd h' (by simp)

/-- Witness of C3 at A = nchw32, B = chwn4 with one boolean flag set. -/
theorem C3_second_layout_is_fatal_witness :
    LayoutFormat.nchw32 ≠ LayoutFormat.chwn4 ∧
      LayoutFormat.chwn4.enable
          { fuse_conv_bias_nonlinearity := true, layout_transform := LayoutTransform.NCHW32 } =
        .error MegBrainError.AssertionError :=
  ⟨by decide, (C3_second_layout_is_fatal LayoutFormat.nchw32 LayoutFormat.chwn4 (by decide)
    { fuse_conv_bias_nonlinearity := true, layout_transform := LayoutTransform.NCHW32 } rfl).1⟩

/-- C4: for each of the eight layout setters and every options value whose
selection is `DEFAULT`, `enable_<fmt>()` succeeds, sets `layout_transform` to the
enumerator of the same name, makes `has_set_<fmt>()` true and leaves the six
boolean flags unchanged. -/
theorem C4_enable_layout_from_default (f : LayoutFormat) (o : GraphCommonOptimizeOptions)
    (h : o.layout_transform = LayoutTransform.DEFAULT) :
    ∃ o' : GraphCommonOptimizeOptions, f.enable o = .ok o' ∧
      o'.layout_transform = f.capital ∧ f.has_set o' = true ∧
      o'.f16_io_f32_comp = o.f16_io_f32_comp ∧ o'.f16_io_comp = o.f16_io_comp ∧
      o'.fuse_conv_bias_nonlinearity = o.fuse_conv_bias_nonlinearity ∧
      o'.fuse_conv_bias_with_z = o.fuse_conv_bias_with_z ∧
      o'.weight_preprocess = o.weight_preprocess ∧ o'.fuse_preprocess = o.fuse_preprocess :=
  ⟨{ o with layout_transform := f.capital }, enable_of_default f o h, rfl,
    by simp [has_set_eq], rfl, rfl, rfl, rfl, rfl, rfl⟩

/-- Witness of C4: `enable_nhwcd4()` on options with two flags set. -/
theorem C4_enable_layout_from_default_witness :
    ∃ o' : GraphCommonOptimizeOptions,
      enable_nhwcd4 { f16_io_comp := true, fuse_preprocess := true } = .ok o' ∧
      o'.layout_transform = LayoutTransform.NHWCD4 ∧ has_set_nhwcd4 o' = true ∧
      o'.f16_io_f32_comp = false ∧ o'.f16_io_comp = true ∧
      o'.fuse_conv_bias_nonlinearity = false ∧ o'.fuse_conv_bias_with_z = false ∧
      o'.weight_preprocess = false ∧ o'.fuse_preprocess = true :=
  C4_enable_layout_from_default LayoutFormat.nhwcd4
    { f16_io_comp := true, fuse_preprocess := true } rfl

/-- The enumerators selected by the eight named setters, as required by C4:
each `enable_<fmt>` on the default options selects the enumerator of the same
name. -/
theorem enable_table :
    enable_nchw4 {} = .ok { layout_transform := LayoutTransform.NCHW4 } ∧
    enable_nhwcd4 {} = .ok { layout_transform := LayoutTransform.NHWCD4 } ∧
    enable_nchw88 {} = .ok { layout_transform := LayoutTransform.NCHW88 } ∧
    enable_nchw44 {} = .ok { layout_transform := LayoutTransform.NCHW44 } ∧
    enable_nchw44_dot {} = .ok { layout_transform := LayoutTransform.NCHW44_DOT } ∧
    enable_nchw32 {} = .ok { layout_transform := LayoutTransform.NCHW32 } ∧
    enable_chwn4 {} = .ok { layout_transform := LayoutTransform.CHWN4 } ∧
    enable_nchw64 {} = .ok { layout_transform := LayoutTransform.NCHW64 } :=
  ⟨rfl, rfl, rfl, rfl, rfl, rfl, rfl, rfl⟩

/-- C5: the default-constructed options have all six boolean flags false and
`layout_transform` equal to `DEFAULT`, so all six boolean queries and all eight
layout queries return false. -/
theorem C5_default_selects_nothing :
    ({} : GraphCommonOptimizeOptions).f16_io_f32_comp = false ∧
    ({} : GraphCommonOptimizeOptions).f16_io_comp = false ∧
    ({} : GraphCommonOptimizeOptions).fuse_conv_bias_nonlinearity = false ∧
    ({} : GraphCommonOptimizeOptions).fuse_conv_bias_with_z = false ∧
    ({} : GraphCommonOptimizeOptions).weight_preprocess = false ∧
    ({} : GraphCommonOptimizeOptions).fuse_preprocess = false ∧
    ({} : GraphCommonOptimizeOptions).layout_transform = LayoutTransform.DEFAULT ∧
    flag_queries {} = [false, false, false, false, false, false] ∧
    layout_queries {} = [false, false, false, false, false, false, false, false] ∧
    (∀ n : BoolFlag, n.has_set {} = false) ∧ (∀ f : LayoutFormat, f.has_set {} = false) := by
  refine ⟨rfl, rfl, rfl, rfl, rfl, rfl, rfl, rfl, rfl, ?_, ?_⟩
  · intro n; cases n <;> rfl
  · intro f; cases f <;> rfl

/-- C6: for each boolean flag n and every options value, `enable_n()` never
fails and makes `has_set_n()` true, `disable_n()` never fails and makes it
false, both leave the other five flags and `layout_transform` unchanged, and
each of them is idempotent. -/
theorem C6_boolean_setters (n : BoolFlag) (o : GraphCommonOptimizeOptions) :
    (Setter.call (Setter.enable_flag n) o = .ok (n.enable o) ∧ n.has_set (n.enable o) = true) ∧
    (Setter.call (Setter.disable_flag n) o = .ok (n.disable o) ∧
      n.has_set (n.disable o) = false) ∧
    (∀ m : BoolFlag, m ≠ n →
      m.field (n.enable o) = m.field o ∧ m.field (n.disable o) = m.field o ∧
      m.has_set (n.enable o) = m.has_set o ∧ m.has_set (n.disable o) = m.has_set o) ∧
    (n.enable o).layout_transform = o.layout_transform ∧
    (n.disable o).layout_transform = o.layout_transform ∧
    n.enable (n.enable o) = n.enable o ∧ n.disable (n.disable o) = n.disable o := by
  refine ⟨⟨rfl, ?_⟩, ⟨rfl, ?_⟩, ?_, ?_, ?_, ?_, ?_⟩
  · cases n <;> rfl
  · cases n <;> rfl
  · intro m hm
    cases m <;> cases n <;> first
      | exact absurd rfl hm
      | exact ⟨rfl, rfl, rfl, rfl⟩
  · cases n <;> rfl
  · cases n <;> rfl
  · cases n <;> rfl
  · cases n <;> rfl

/-- Witness of C6: enabling `fuse_conv_bias_nonlinearity` keeps `f16_io_comp`. -/
theorem C6_boolean_setters_witness :
    BoolFlag.f16_io_comp ≠ BoolFlag.fuse_conv_bias_nonlinearity ∧
      BoolFlag.f16_io_comp.field
          (enable_fuse_conv_bias_nonlinearity
            { f16_io_comp := true, layout_transform := LayoutTransform.NCHW88 }) = true :=
  ⟨by decide, ((C6_boolean_setters BoolFlag.fuse_conv_bias_nonlinearity
    { f16_io_comp := true, layout_transform := LayoutTransform.NCHW88 }).2.2.1
      BoolFlag.f16_io_comp (by decide)).1⟩

/-- Enabling a boolean flag does not touch the layout selection, and commutes
with replacing it. -/
theorem enable_flag_layout (n : BoolFlag) (o : GraphCommonOptimizeOptions)
    (l : LayoutTransform) :
    (n.enable o).layout_transform = o.layout_transform ∧
      n.enable { o with layout_transform := l } = { n.enable o with layout_transform := l } := by
  cases n <;> exact ⟨rfl, rfl⟩

/-- C7: chained setters commute. For every options value whose selection is
`DEFAULT`, every boolean flag n and every layout F, the chains
`enable_n().enable_F()` and `enable_F().enable_n()` both succeed with the same
options value; and `enable_n`, `enable_m` commute for any two boolean flags on
every options value. -/
theorem C7_setters_commute (o : GraphCommonOptimizeOptions) :
    (o.layout_transform = LayoutTransform.DEFAULT → ∀ (n : BoolFlag) (F : LayoutFormat),
      ∃ o' : GraphCommonOptimizeOptions,
        (Setter.call (Setter.enable_flag n) o >>= Setter.call (Setter.enable_layout F)) = .ok o' ∧
        (Setter.call (Setter.enable_layout F) o >>= Setter.call (Setter.enable_flag n)) =
          .ok o') ∧
    (∀ n m : BoolFlag,
      (Setter.call (Setter.enable_flag n) o >>= Setter.call (Setter.enable_flag m)) =
        (Setter.call (Setter.enable_flag m) o >>= Setter.call (Setter.enable_flag n)) ∧
      m.enable (n.enable o) = n.enable (m.enable o)) := by
  constructor
  · intro h n F
    refine ⟨{ n.enable o with layout_transform := F.capital }, ?_, ?_⟩
    · show F.enable (n.enable o) = _
      exact enable_of_default F _ ((enable_flag_layout n o F.capital).1.trans h)
    · show (F.enable o >>= Setter.call (Setter.enable_flag n)) = _
      rw [enable_of_default F o h]
      show Except.ok (n.enable _) = _
      rw [(enable_flag_layout n o F.capital).2]
  · intro n m
    have hc : m.enable (n.enable o) = n.enable (m.enable o) := by
      cases n <;> cases m <;> rfl
    refine ⟨?_, hc⟩
    show Except.ok (m.enable (n.enable o)) = Except.ok (n.enable (m.enable o))
    rw [hc]

/-- Witness of C7: the two chains used by the tests, on the default options. -/
theorem C7_setters_commute_witness :
    ({} : GraphCommonOptimizeOptions).layout_transform = LayoutTransform.DEFAULT ∧
      ∃ o' : GraphCommonOptimizeOptions,
        (Setter.call (Setter.enable_flag BoolFlag.fuse_conv_bias_nonlinearity) {} >>=
          Setter.call (Setter.enable_layout LayoutFormat.nchw32)) = .ok o' ∧
        (Setter.call (Setter.enable_layout LayoutFormat.nchw32) {} >>=
          Setter.call (Setter.enable_flag BoolFlag.fuse_conv_bias_nonlinearity)) = .ok o' :=
  ⟨rfl, (C7_setters_commute {}).1 rfl BoolFlag.fuse_conv_bias_nonlinearity LayoutFormat.nchw32⟩

/-- C8: for every receiver info with `allow_empty_value <= dev_value + host_value`
and `dev_value + host_value < 2^64`, `is_empty_allowed()` is true exactly when
`allow_empty_value` equals `dev_value + host_value`; when at least one counted
reader does not allow emptiness (the count is strictly smaller) it is false. -/
theorem C8_is_empty_allowed (v : VarReceiverInfo)
    (_hle : v.allow_empty_value ≤ v.dev_value + v.host_value)
    (hlt : v.dev_value + v.host_value < 2 ^ 64) :
    (v.is_empty_allowed = true ↔ v.allow_empty_value = v.dev_value + v.host_value) ∧
      (v.allow_empty_value < v.dev_value + v.host_value → v.is_empty_allowed = false) := by
  have hmod : (v.host_value + v.dev_value) % size_t_range = v.dev_value + v.host_value := by
    rw [Nat.add_comm]; exact Nat.mod_eq_of_lt hlt
  have hiff : v.is_empty_allowed = true ↔ v.allow_empty_value = v.dev_value + v.host_value := by
    simp [VarReceiverInfo.is_empty_allowed, hmod]
  refine ⟨hiff, fun h => ?_⟩
  cases hb : v.is_empty_allowed
  · rfl
  · exact absurd (hiff.mp hb) (Nat.ne_of_lt h)

/-- Witness of C8: three value readers, two of which allow an empty var. -/
theorem C8_is_empty_allowed_witness :
    (2 : Nat) ≤ 2 + 1 ∧ (2 : Nat) + 1 < 2 ^ 64 ∧
      VarReceiverInfo.is_empty_allowed
        { dev_value := 2, host_value := 1, allow_empty_value := 2 } = false :=
  ⟨by decide, by decide,
    (C8_is_empty_allowed { dev_value := 2, host_value := 1, allow_empty_value := 2 }
      (by decide) (by decide)).2 (by decide)⟩

/-- The record needs nothing exactly when its four request counters are zero. -/
theorem empty_iff_counters_zero (v : VarReceiverInfo) :
    v.empty = true ↔
      v.nr_direct_comp_req = 0 ∧ v.dev_value = 0 ∧ v.shape = 0 ∧ v.host_value = 0 := by
  simp [VarReceiverInfo.empty, size_t_to_bool, and_assoc]

/-- C9: `empty()` is true exactly when `nr_direct_comp_req`, `dev_value`, `shape`
and `host_value` are all zero; it does not depend on `allow_empty_value` or
`last_dev_value_reader`; and it is true for the default-constructed record. -/
theorem C9_empty (v : VarReceiverInfo) :
    (v.empty = true ↔
      v.nr_direct_comp_req = 0 ∧ v.dev_value = 0 ∧ v.shape = 0 ∧ v.host_value = 0) ∧
    (∀ (a : Nat) (r : Option Nat),
      VarReceiverInfo.empty { v with allow_empty_value := a, last_dev_value_reader := r } =
        v.empty) ∧
    VarReceiverInfo.empty {} = true :=
  ⟨empty_iff_counters_zero v, fun _ _ => rfl, rfl⟩

/-- C10: `value_needed()` is true exactly when at least one of `dev_value`,
`shape`, `host_value` is non-zero, and `value_needed()` implies `!empty()`. -/
theorem C10_value_needed (v : VarReceiverInfo) :
    (v.value_needed = true ↔ v.dev_value ≠ 0 ∨ v.shape ≠ 0 ∨ v.host_value ≠ 0) ∧
      (v.value_needed = true → v.empty = false) := by
  have hiff : v.value_needed = true ↔ v.dev_value ≠ 0 ∨ v.shape ≠ 0 ∨ v.host_value ≠ 0 := by
    simp [VarReceiverInfo.value_needed, size_t_to_bool, or_assoc]
  refine ⟨hiff, fun h => ?_⟩
  cases he : v.empty
  · rfl
  · have hz := (empty_iff_counters_zero v).mp he
    rcases hiff.mp h with h1 | h1 | h1
    · exact absurd hz.2.1 h1
    · exact absurd hz.2.2.1 h1
    · exact absurd hz.2.2.2 h1

/-- Witness of C10: a var read only for its shape is needed and not empty. -/
theorem C10_value_needed_witness :
    VarReceiverInfo.value_needed { shape := 1 } = true ∧
      VarReceiverInfo.empty { shape := 1 } = false :=
  ⟨rfl, (C10_value_needed { shape := 1 }).2 rfl⟩

/-- C11: a receiver info is non-empty without a needed value exactly when the
only requests are direct-computation requests (empty callbacks):
`!empty() && !value_needed()` holds if and only if `nr_direct_comp_req > 0` and
`dev_value`, `shape`, `host_value` are all zero. -/
theorem C11_direct_request_only (v : VarReceiverInfo) :
    (v.empty = false ∧ v.value_needed = false) ↔
      (0 < v.nr_direct_comp_req ∧ v.dev_value = 0 ∧ v.shape = 0 ∧ v.host_value = 0) := by
  simp only [VarReceiverInfo.empty, VarReceiverInfo.value_needed, size_t_to_bool]
  constructor
  · intro h
    simp only [Bool.or_eq_false_iff, bne_eq_false_iff_eq, Bool.and_eq_false_iff,
      Bool.not_eq_eq_eq_not, Bool.not_true, Bool.not_eq_false'] at h
    obtain ⟨h1, ⟨h2, h3⟩, h4⟩ := h
    simp [h2, h3, h4] at h1
    exact ⟨Nat.pos_of_ne_zero h1, h2, h3, h4⟩
  · rintro ⟨h1, h2, h3, h4⟩
    simp [h2, h3, h4, Nat.ne_of_gt h1]

/-- C12: in default-constructed `ComputingGraph::Options` the memory-saving
strategies that discard or move data are off, the forced dynamic allocation
options are off, defragmentation is on, and `dtr_config` has
`eviction_threshold` 0 and `evictee_minimum_size` 2^20 = 1048576. -/
theorem C12_default_memory_options (cpu_count : Nat) :
    (Options.default_constructed cpu_count).enable_dtr_memory_opt = false ∧
    (Options.default_constructed cpu_count).enable_sublinear_memory_opt = false ∧
    (Options.default_constructed cpu_count).enable_memory_swap = false ∧
    (Options.default_constructed cpu_count).force_dynamic_alloc = false ∧
    (Options.default_constructed cpu_count).force_output_dynamic_alloc = false ∧
    (Options.default_constructed cpu_count).force_output_use_user_specified_memory = false ∧
    (Options.default_constructed cpu_count).enable_var_mem_defragment = true ∧
    (Options.default_constructed cpu_count).dtr_config.eviction_threshold = 0 ∧
    (Options.default_constructed cpu_count).dtr_config.evictee_minimum_size = 2 ^ 20 ∧
    (Options.default_constructed cpu_count).dtr_config.evictee_minimum_size = 1048576 :=
  ⟨rfl, rfl, rfl, rfl, rfl, rfl, rfl, rfl, rfl, rfl⟩

/-- C13: default-constructed `ComputingGraph::Options` has `graph_opt_level` 2,
`log_level` 1, `async_exec_level` 1, `comp_node_seq_record_level` 0,
`var_sanity_check_first_run` true, the three `seq_opt` flags true, and a
`graph_opt` with `jit` 0, `tensorrt` false, both JIT config fields `UNSET`, no
boolean optimize flag set and `layout_transform` equal to `DEFAULT`. -/
theorem C13_default_options (cpu_count : Nat) :
    (Options.default_constructed cpu_count).graph_opt_level = 2 ∧
    (Options.default_constructed cpu_count).log_level = 1 ∧
    (Options.default_constructed cpu_count).async_exec_level = 1 ∧
    (Options.default_constructed cpu_count).comp_node_seq_record_level = 0 ∧
    (Options.default_constructed cpu_count).var_sanity_check_first_run = true ∧
    (Options.default_constructed cpu_count).seq_opt.enable_mem_plan_opt = true ∧
    (Options.default_constructed cpu_count).seq_opt.enable_mem_reuse_alloc = true ∧
    (Options.default_constructed cpu_count).seq_opt.enable_seq_comp_node_opt = true ∧
    (Options.default_constructed cpu_count).graph_opt.jit = 0 ∧
    (Options.default_constructed cpu_count).graph_opt.tensorrt = false ∧
    (Options.default_constructed cpu_count).graph_opt.jit_config.fuse_dimshuffle =
      Options.GraphOpt.JITConfig.UNSET ∧
    (Options.default_constructed cpu_count).graph_opt.jit_config.fuse_reduce =
      Options.GraphOpt.JITConfig.UNSET ∧
    flag_queries (Options.default_constructed cpu_count).graph_opt.toGraphCommonOptimizeOptions =
      [false, false, false, false, false, false] ∧
    (∀ n : BoolFlag,
      n.has_set (Options.default_constructed cpu_count).graph_opt.toGraphCommonOptimizeOptions =
        false) ∧
    (Options.default_constructed cpu_count).graph_opt.layout_transform =
      LayoutTransform.DEFAULT := by
  refine ⟨rfl, rfl, rfl, rfl, rfl, rfl, rfl, rfl, rfl, rfl, rfl, rfl, rfl, ?_, rfl⟩
  intro n; cases n <;> rfl

/-- Structural equality of operators is equality of type, inputs and parameter. -/
theorem structurally_equal_iff (a b : OperatorNodeBase) :
    a.structurally_equal b = true ↔ a.type = b.type ∧ a.input = b.input ∧ a.param = b.param := by
  simp [OperatorNodeBase.structurally_equal, and_assoc]

/-- Unfolding of the check that inputs are produced at earlier positions. -/
theorem inputs_precede_spec (l : List OperatorNodeBase) (k : Nat) :
    OprStore.inputs_precede k l = true ↔
      ∀ (i : Nat) (opr : OperatorNodeBase), l[i]? = some opr →
        ∀ v ∈ opr.input, v.owner_opr < k + i := by
  induction l generalizing k with
  | nil => simp [OprStore.inputs_precede]
  | cons a rest ih =>
    simp only [OprStore.inputs_precede, Bool.and_eq_true, List.all_eq_true, decide_eq_true_eq, ih]
    constructor
    · rintro ⟨h0, hrest⟩ i opr hi v hv
      cases i with
      | zero =>
        simp only [List.getElem?_cons_zero, Option.some.injEq] at hi
        subst hi
        exact h0 v hv
      | succ i =>
        simp only [List.getElem?_cons_succ] at hi
        have := hrest i opr hi v hv
        omega
    · intro h
      refine ⟨fun v hv => h 0 a (by simp) v hv, fun i opr hi v hv => ?_⟩
      have := h (i + 1) opr (by simpa using hi) v hv
      omega

/-- In an acyclic store every input of an operator is produced at an earlier position. -/
theorem acyclic_input_lt (g : OprStore) (hacyc : g.acyclic = true) (i : Nat)
    (opr : OperatorNodeBase) (hi : g.oprs[i]? = some opr) :
    ∀ v ∈ opr.input, v.owner_opr < i := by
  intro v hv
  have := (inputs_precede_spec g.oprs 0).mp hacyc i opr hi v hv
  omega

/-- In an acyclic store the producers of the inputs of an operator precede it. -/
theorem producers_lt (g : OprStore) (hacyc : g.acyclic = true) (j k : Nat)
    (hk : k ∈ g.producers j) : k < j := by
  unfold OprStore.producers at hk
  cases hj : g.oprs[j]? with
  | none => simp [hj] at hk
  | some opr =>
    simp only [hj, List.mem_map] at hk
    obtain ⟨v, hv, rfl⟩ := hk
    exact acyclic_input_lt g hacyc j opr hj v hv

/-- The empty store is acyclic and deduplicated, and `insert_opr` keeps both
properties: they hold of every store built by insertion. -/
theorem insert_opr_keeps_invariants (g : OprStore) (opr : OperatorNodeBase) (r : Nat)
    (g' : OprStore) (hacyc : g.acyclic = true) (hdedup : g.deduplicated)
    (h : g.insert_opr opr = .ok (r, g')) :
    g'.acyclic = true ∧ g'.deduplicated ∧ r < g'.oprs.length := by
  unfold OprStore.insert_opr at h
  by_cases hin : opr.input.all (fun v => decide (v.owner_opr < g.oprs.length)) = true
  · simp only [mgb_assert, hin, if_true, bind, Except.bind] at h
    cases hf : g.oprs.findIdx? (fun old => old.structurally_equal opr) with
    | some i =>
      simp only [hf, pure, Except.pure, Except.ok.injEq, Prod.mk.injEq] at h
      obtain ⟨rfl, rfl⟩ := h
      obtain ⟨hlt, -⟩ := List.findIdx?_eq_some_iff_getElem.mp hf
      exact ⟨hacyc, hdedup, hlt⟩
    | none =>
      simp only [hf, pure, Except.pure, Except.ok.injEq, Prod.mk.injEq] at h
      obtain ⟨rfl, rfl⟩ := h
      refine ⟨?_, ?_, by simp⟩
      · refine (inputs_precede_spec _ 0).mpr fun i o hi v hv => ?_
        rcases Nat.lt_or_ge i g.oprs.length with hlt | hge
        · rw [List.getElem?_append_left hlt] at hi
          exact (inputs_precede_spec g.oprs 0).mp hacyc i o hi v hv
        · rw [List.getElem?_append_right hge] at hi
          have h0 : i - g.oprs.length = 0 := by
            by_contra hne
            obtain ⟨m, hm⟩ := Nat.exists_eq_succ_of_ne_zero hne
            simp [hm] at hi
          simp only [h0, List.getElem?_cons_zero, Option.some.injEq] at hi
          subst hi
          have := (List.all_eq_true.mp hin) v hv
          simp only [decide_eq_true_eq] at this
          omega
      · unfold OprStore.deduplicated
        rw [List.pairwise_append]
        refine ⟨hdedup, by simp, fun a ha b hb => ?_⟩
        simp only [List.mem_singleton] at hb
        subst hb
        exact List.findIdx?_eq_none_iff.mp hf a ha
  · simp [mgb_assert, hin, bind, Except.bind] at h

/-- C14: `insert_opr` deduplicates by structure. In a graph built by insertion
(acyclic and deduplicated), inserting an operator whose type, inputs and
parameter equal those of the operator stored at `i` returns `i` and leaves the
graph as it is, so the output variable is the existing one and the number of
operators does not grow. -/
theorem C14_insert_opr_deduplicates (g : OprStore) (opr old : OperatorNodeBase) (i : Nat)
    (hacyc : g.acyclic = true) (hdedup : g.deduplicated)
    (hold : g.oprs[i]? = some old) (heq : opr.structurally_equal old = true) :
    g.insert_opr opr = .ok (i, g) ∧
      ∀ (r : Nat) (g' : OprStore), g.insert_opr opr = .ok (r, g') →
        r = i ∧ (VarNode.mk r 0 = VarNode.mk i 0) ∧ g'.oprs.length = g.oprs.length := by
  have hmain : g.insert_opr opr = .ok (i, g) := by
    obtain ⟨ht, hinp, hp⟩ := (structurally_equal_iff opr old).mp heq
    obtain ⟨hi, hget⟩ := List.getElem?_eq_some_iff.mp hold
    have hin : opr.input.all (fun v => decide (v.owner_opr < g.oprs.length)) = true := by
      rw [List.all_eq_true]
      intro v hv
      have := acyclic_input_lt g hacyc i old hold v (hinp ▸ hv)
      simp only [decide_eq_true_eq]
      omega
    have hmem : old ∈ g.oprs := hget ▸ List.getElem_mem hi
    have hseq : old.structurally_equal opr = true :=
      (structurally_equal_iff old opr).mpr ⟨ht.symm, hinp.symm, hp.symm⟩
    cases hf : g.oprs.findIdx? (fun o => o.structurally_equal opr) with
    | none =>
      have := List.findIdx?_eq_none_iff.mp hf old hmem
      rw [hseq] at this
      exact absurd this (by simp)
    | some j =>
      obtain ⟨hj, hpj, -⟩ := List.findIdx?_eq_some_iff_getElem.mp hf
      have hji : j = i := by
        by_contra hne
        have hpw := List.pairwise_iff_getElem.mp hdedup
        obtain ⟨tj, ij, pj⟩ := (structurally_equal_iff _ _).mp hpj
        have hseq1 : (g.oprs[j]).structurally_equal (g.oprs[i]) = true :=
          (structurally_equal_iff _ _).mpr
            ⟨tj.trans (ht.trans (hget ▸ rfl)), ij.trans (hinp.trans (hget ▸ rfl)),
              pj.trans (hp.trans (hget ▸ rfl))⟩
        have hseq2 : (g.oprs[i]).structurally_equal (g.oprs[j]) = true := by
          obtain ⟨a, b, c⟩ := (structurally_equal_iff _ _).mp hseq1
          exact (structurally_equal_iff _ _).mpr ⟨a.symm, b.symm, c.symm⟩
        rcases Nat.lt_or_gt_of_ne hne with hlt | hgt
        · have := hpw j i hj hi hlt
          rw [hseq1] at this
          exact absurd this (by simp)
        · have := hpw i j hi hj hgt
          rw [hseq2] at this
          exact absurd this (by simp)
      subst hji
      simp [OprStore.insert_opr, mgb_assert, hin, hf, bind, Except.bind, pure, Except.pure]
  refine ⟨hmain, fun r g' h => ?_⟩
  rw [hmain] at h
  simp only [Except.ok.injEq, Prod.mk.injEq] at h
  obtain ⟨rfl, rfl⟩ := h
  exact ⟨rfl, rfl, rfl⟩

/-- Witness of C14: a convolution-like operator (type 2) over two stored inputs
is inserted again under another name. -/
theorem C14_insert_opr_deduplicates_witness :
    OprStore.insert_opr
        { oprs := [{ type := 0, param := 1 }, { type := 0, param := 2 },
          { type := 2, name := "conv", input := [{ owner_opr := 0 }, { owner_opr := 1 }] }] }
        { type := 2, name := "again", input := [{ owner_opr := 0 }, { owner_opr := 1 }] } =
      .ok (2, { oprs := [{ type := 0, param := 1 }, { type := 0, param := 2 },
          { type := 2, name := "conv", input := [{ owner_opr := 0 }, { owner_opr := 1 }] }] }) :=
  (C14_insert_opr_deduplicates
    { oprs := [{ type := 0, param := 1 }, { type := 0, param := 2 },
      { type := 2, name := "conv", input := [{ owner_opr := 0 }, { owner_opr := 1 }] }] }
    { type := 2, name := "again", input := [{ owner_opr := 0 }, { owner_opr := 1 }] }
    { type := 2, name := "conv", input := [{ owner_opr := 0 }, { owner_opr := 1 }] } 2
    rfl (by decide) rfl rfl).1

/-- In an acyclic store an operator that contributes to `e` is stored no later than `e`. -/
theorem contributes_le (g : OprStore) (hacyc : g.acyclic = true) (e j : Nat)
    (h : g.Contributes e j) : j ≤ e := by
  induction h with
  | refl => exact Nat.le_refl _
  | step _ hk ih => exact Nat.le_trans (Nat.le_of_lt (producers_lt g hacyc _ _ hk)) ih

/-- Contribution is transitive. -/
theorem contributes_trans (g : OprStore) (a b c : Nat) (hab : g.Contributes a b)
    (hbc : g.Contributes b c) : g.Contributes a c := by
  induction hbc with
  | refl => exact hab
  | step _ hk ih => exact OprStore.Contributes.step ih hk

/-- A dependency-ordered list contains the producers of each of its members. -/
theorem dependency_ordered_closed (g : OprStore) (l : List Nat)
    (hl : DepOprIter.dependency_ordered g l) (i k : Nat) (hi : i ∈ l)
    (hk : k ∈ g.producers i) : k ∈ l := by
  induction l with
  | nil => simp at hi
  | cons a rest ih =>
    obtain ⟨-, hprod, hrest⟩ := hl
    rcases List.mem_cons.mp hi with rfl | hmem
    · exact List.mem_cons_of_mem _ (hprod k hk)
    · exact List.mem_cons_of_mem _ (ih hrest hmem)

/-- A dependency-ordered list has no repetition. -/
theorem dependency_ordered_nodup (g : OprStore) (l : List Nat)
    (hl : DepOprIter.dependency_ordered g l) : l.Nodup := by
  induction l with
  | nil => exact List.nodup_nil
  | cons a rest ih => exact List.nodup_cons.mpr ⟨hl.1, ih hl.2.2⟩

/-- In a dependency-ordered list the producers of a member stand after it
(they were finalized earlier). -/
theorem dependency_ordered_split (g : OprStore) (a b : List Nat) (j : Nat)
    (hl : DepOprIter.dependency_ordered g (a ++ j :: b)) :
    ∀ k ∈ g.producers j, k ∈ b := by
  induction a with
  | nil => exact hl.2.1
  | cons x rest ih => exact ih hl.2.2

/-- Traversing a list of operators, given that the traversal of a single
operator at this depth behaves. -/
theorem visit_foldl_spec (g : OprStore) (depth : Nat)
    (hv : ∀ (done : List Nat) (opr : Nat), opr < depth →
      DepOprIter.dependency_ordered g done →
      DepOprIter.dependency_ordered g (DepOprIter.visit g depth done opr) ∧
        opr ∈ DepOprIter.visit g depth done opr ∧
        (∀ j ∈ done, j ∈ DepOprIter.visit g depth done opr) ∧
        (∀ j ∈ DepOprIter.visit g depth done opr, j ∈ done ∨ g.Contributes opr j))
    (ds : List Nat) (done : List Nat) (hds : ∀ d ∈ ds, d < depth)
    (hdone : DepOprIter.dependency_ordered g done) :
    DepOprIter.dependency_ordered g (ds.foldl (DepOprIter.visit g depth) done) ∧
      (∀ d ∈ ds, d ∈ ds.foldl (DepOprIter.visit g depth) done) ∧
      (∀ j ∈ done, j ∈ ds.foldl (DepOprIter.visit g depth) done) ∧
      (∀ j ∈ ds.foldl (DepOprIter.visit g depth) done,
        j ∈ done ∨ ∃ d ∈ ds, g.Contributes d j) := by
  induction ds generalizing done with
  | nil => exact ⟨hdone, by simp, fun j hj => hj, fun j hj => Or.inl hj⟩
  | cons d rest ih =>
    obtain ⟨h1, h2, h3, h4⟩ := hv done d (hds d (List.mem_cons_self _ _)) hdone
    obtain ⟨i1, i2, i3, i4⟩ :=
      ih (DepOprIter.visit g depth done d) (fun x hx => hds x (List.mem_cons_of_mem _ hx)) h1
    simp only [List.foldl_cons]
    refine ⟨i1, ?_, fun j hj => i3 j (h3 j hj), ?_⟩
    · intro x hx
      rcases List.mem_cons.mp hx with rfl | hmem
      · exact i3 _ h2
      · exact i2 x hmem
    · intro j hj
      rcases i4 j hj with hmem | ⟨x, hx, hc⟩
      · rcases h4 j hmem with hd | hc
        · exact Or.inl hd
        · exact Or.inr ⟨d, List.mem_cons_self _ _, hc⟩
      · exact Or.inr ⟨x, List.mem_cons_of_mem _ hx, hc⟩

/-- Traversing one operator of an acyclic store with enough depth: the result
stays dependency-ordered, contains the operator and everything finalized
before, and adds only operators that contribute to it. -/
theorem visit_spec (g : OprStore) (hacyc : g.acyclic = true) (depth : Nat) :
    ∀ (done : List Nat) (opr : Nat), opr < depth →
      DepOprIter.dependency_ordered g done →
      DepOprIter.dependency_ordered g (DepOprIter.visit g depth done opr) ∧
        opr ∈ DepOprIter.visit g depth done opr ∧
        (∀ j ∈ done, j ∈ DepOprIter.visit g depth done opr) ∧
        (∀ j ∈ DepOprIter.visit g depth done opr, j ∈ done ∨ g.Contributes opr j) := by
  induction depth with
  | zero => intro done opr h; exact absurd h (Nat.not_lt_zero _)
  | succ depth ih =>
    intro done opr hlt hdone
    by_cases hmem : opr ∈ done
    · have hv : DepOprIter.visit g (depth + 1) done opr = done := by
        simp [DepOprIter.visit, hmem]
      rw [hv]
      exact ⟨hdone, hmem, fun j hj => hj, fun j hj => Or.inl hj⟩
    · have hv : DepOprIter.visit g (depth + 1) done opr =
          opr :: (g.producers opr).foldl (DepOprIter.visit g depth) done := by
        simp [DepOprIter.visit, hmem]
      rw [hv]
      have hds : ∀ d ∈ g.producers opr, d < depth := fun d hd => by
        have := producers_lt g hacyc opr d hd
        omega
      obtain ⟨f1, f2, f3, f4⟩ := visit_foldl_spec g depth ih (g.producers opr) done hds hdone
      refine ⟨⟨?_, f2, f1⟩, List.mem_cons_self _ _, fun j hj => List.mem_cons_of_mem _ (f3 j hj),
        ?_⟩
      · intro hin
        rcases f4 opr hin with hd | ⟨d, hd, hc⟩
        · exact hmem hd
        · have h1 := contributes_le g hacyc d opr hc
          have h2 := producers_lt g hacyc opr d hd
          omega
      · intro j hj
        rcases List.mem_cons.mp hj with rfl | hj'
        · exact Or.inr OprStore.Contributes.refl
        · rcases f4 j hj' with hd | ⟨d, hd, hc⟩
          · exact Or.inl hd
          · exact Or.inr (contributes_trans g _ d j
              (OprStore.Contributes.step OprStore.Contributes.refl hd) hc)

/-- The visiting order of a fresh iterator on an acyclic store: its reverse is
dependency-ordered and its members are exactly the contributing operators. -/
theorem order_spec (g : OprStore) (hacyc : g.acyclic = true) (dest : Nat) :
    DepOprIter.dependency_ordered g (DepOprIter.order g dest).reverse ∧
      ∀ j, j ∈ DepOprIter.order g dest ↔ g.Contributes dest j := by
  obtain ⟨h1, h2, -, h4⟩ := visit_spec g hacyc (dest + 1) [] dest (Nat.lt_succ_self _) trivial
  simp only [DepOprIter.order, List.reverse_reverse, List.mem_reverse]
  refine ⟨h1, fun j => ⟨fun hj => ?_, fun hc => ?_⟩⟩
  · rcases h4 j hj with hn | hc
    · simp at hn
    · exact hc
  · induction hc with
    | refl => exact h2
    | step _ hk ih => exact dependency_ordered_closed g _ h1 _ _ ih hk

/-- Counting with a visitor that increments on a condition equals the length of
the filtered list. -/
theorem foldl_count_eq (p : Nat → Bool) (l : List Nat) (init : Nat) :
    l.foldl (fun n x => if p x then n + 1 else n) init = init + (l.filter p).length := by
  induction l generalizing init with
  | nil => simp
  | cons a rest ih =>
    simp only [List.foldl_cons, List.filter_cons]
    by_cases ha : p a = true
    · simp only [ha, if_true, ih, List.length_cons]; omega
    · simp only [ha, if_false, ih, Bool.false_eq_true]

/-- C15: on an acyclic operator store, `DepOprIter{cb}.add(endpoint)` invokes the
visitor exactly once on each operator that transitively contributes to the
endpoint and on no other operator, and on all producers of an operator's inputs
before the operator itself; hence `find_opr_num<T>(endpoint)` is the number of
distinct contributing operators of type `T`. -/
theorem C15_dep_opr_iter_visits_once (g : OprStore) (hacyc : g.acyclic = true)
    (endpoint : Nat) (T : Nat) :
    (∀ j, g.Contributes endpoint j → (DepOprIter.order g endpoint).count j = 1) ∧
    (∀ j, ¬ g.Contributes endpoint j → (DepOprIter.order g endpoint).count j = 0) ∧
    (∀ (pre post : List Nat) (j : Nat), DepOprIter.order g endpoint = pre ++ j :: post →
      ∀ k ∈ g.producers j, k ∈ pre) ∧
    (∀ {σ : Type} (cb : σ → Nat → σ) (init : σ),
      DepOprIter.add cb init g endpoint = (DepOprIter.order g endpoint).foldl cb init) ∧
    ∃ S : Finset Nat,
      (∀ j, j ∈ S ↔
        g.Contributes endpoint j ∧ ∃ o, g.oprs[j]? = some o ∧ o.same_type T = true) ∧
      find_opr_num g T (VarNode.mk endpoint 0) = S.card := by
  obtain ⟨hord, hmem⟩ := order_spec g hacyc endpoint
  have hnodup : (DepOprIter.order g endpoint).Nodup :=
    List.nodup_reverse.mp (dependency_ordered_nodup g _ hord)
  refine ⟨fun j hj => List.count_eq_one_of_mem hnodup ((hmem j).mpr hj),
    fun j hj => List.count_eq_zero_of_not_mem (fun h => hj ((hmem j).mp h)), ?_,
    fun _ _ => rfl, ?_⟩
  · intro pre post j heq k hk
    rw [heq, List.reverse_append, List.reverse_cons, List.append_assoc] at hord
    have := dependency_ordered_split g post.reverse pre.reverse j hord k hk
    exact List.mem_reverse.mp this
  · let p : Nat → Bool := fun j =>
      match g.oprs[j]? with
      | some o => o.same_type T
      | none => false
    refine ⟨((DepOprIter.order g endpoint).filter p).toFinset, fun j => ?_, ?_⟩
    · simp only [List.mem_toFinset, List.mem_filter, hmem]
      refine and_congr_right fun _ => ?_
      show (match g.oprs[j]? with | some o => o.same_type T | none => false) = true ↔ _
      cases g.oprs[j]? with
      | none => simp
      | some o => simp
    · rw [List.toFinset_card_of_nodup (hnodup.filter _)]
      have hcb : (fun (opr_num : Nat) (opr : Nat) =>
          match g.oprs[opr]? with
          | some o => if o.same_type T then opr_num + 1 else opr_num
          | none => opr_num) = fun n x => if p x then n + 1 else n := by
        funext n x
        show _ = if (match g.oprs[x]? with | some o => o.same_type T | none => false) = true
          then n + 1 else n
        cases g.oprs[x]? with
        | none => simp
        | some o => simp
      unfold find_opr_num DepOprIter.add
      rw [hcb, foldl_count_eq, Nat.zero_add]

/-- Witness of C15: a diamond-shaped store with an operator that does not
contribute; two of the four contributing operators have type 2. -/
theorem C15_dep_opr_iter_visits_once_witness :
    OprStore.acyclic
        { oprs := [{ type := 1 }, { type := 2, input := [{ owner_opr := 0 }] },
          { type := 2, input := [{ owner_opr := 0 }] }, { type := 9 },
          { type := 3, input := [{ owner_opr := 1 }, { owner_opr := 2 }] }] } = true ∧
      ∃ S : Finset Nat, find_opr_num
        { oprs := [{ type := 1 }, { type := 2, input := [{ owner_opr := 0 }] },
          { type := 2, input := [{ owner_opr := 0 }] }, { type := 9 },
          { type := 3, input := [{ owner_opr := 1 }, { owner_opr := 2 }] }] } 2
        (VarNode.mk 4 0) = S.card :=
  ⟨rfl, (C15_dep_opr_iter_visits_once
    { oprs := [{ type := 1 }, { type := 2, input := [{ owner_opr := 0 }] },
      { type := 2, input := [{ owner_opr := 0 }] }, { type := 9 },
      { type := 3, input := [{ owner_opr := 1 }, { owner_opr := 2 }] }] }
    rfl 4 2).2.2.2.2.imp fun _ h => h.2⟩

/-- The endpoints of an optimizer run are the requested endpoints under the
running mapping, whatever the state the passes start from. -/
theorem foldl_run_pass_endpoints (ps : List gopt.Pass) (st : gopt.OptState)
    (requested : List VarNode) (h : st.endpoints = requested.map st.mapping) :
    (ps.foldl gopt.GraphOptimizer.run_pass st).endpoints =
      requested.map (ps.foldl gopt.GraphOptimizer.run_pass st).mapping := by
  induction ps generalizing st with
  | nil => exact h
  | cons p rest ih =>
    simp only [List.foldl_cons]
    apply ih
    simp [gopt.GraphOptimizer.run_pass, h, List.map_map]

/-- C16: pass replacements compose. `endpoint_vars()` returns one result per
requested endpoint, in the requested order, namely each requested endpoint
under the running mapping; appending a pass composes its mapping after the
running one; and in a pipeline of an earlier and a later pass, if the earlier
pass maps the requested endpoint A to B and the later pass maps B to C, the
endpoint returned for A is C. -/
theorem C16_replacements_compose (requested : List VarNode) :
    (∀ opt : gopt.GraphOptimizer,
      (opt.apply requested).endpoint_vars.length = requested.length ∧
      (opt.apply requested).endpoint_vars = requested.map (opt.apply requested).mapping) ∧
    (∀ (opt : gopt.GraphOptimizer) (p : gopt.Pass),
      ((opt.add_pass p).apply requested).mapping =
        p.apply (opt.apply requested).endpoint_vars ∘ (opt.apply requested).mapping) ∧
    (∀ (earlier later : gopt.Pass) (i : Nat) (A B C : VarNode),
      requested[i]? = some A → earlier.apply requested A = B →
      later.apply (requested.map (earlier.apply requested)) B = C →
      ((((gopt.GraphOptimizer.mk []).add_pass earlier).add_pass later).apply
        requested).endpoint_vars[i]? = some C) := by
  have hep : ∀ opt : gopt.GraphOptimizer,
      (opt.apply requested).endpoint_vars = requested.map (opt.apply requested).mapping :=
    fun opt => foldl_run_pass_endpoints opt.passes _ requested (by simp)
  refine ⟨fun opt => ⟨by rw [hep opt, List.length_map], hep opt⟩, ?_, ?_⟩
  · intro opt p
    simp [gopt.GraphOptimizer.apply, gopt.GraphOptimizer.add_pass, List.foldl_append,
      gopt.GraphOptimizer.run_pass, gopt.OptState.endpoint_vars]
  · intro earlier later i A B C hi h1 h2
    simp [gopt.GraphOptimizer.apply, gopt.GraphOptimizer.add_pass,
      gopt.GraphOptimizer.run_pass, gopt.OptState.endpoint_vars, hi, h1, h2]

/-- Witness of C16: the earlier pass moves every variable to output 1 of its
operator, the later pass moves every variable to the next operator. -/
theorem C16_replacements_compose_witness :
    ((((gopt.GraphOptimizer.mk []).add_pass
        { apply := fun _ v => { owner_opr := v.owner_opr, index := 1 } }).add_pass
        { apply := fun _ v => { owner_opr := v.owner_opr + 1, index := v.index } }).apply
      [{ owner_opr := 7 }, { owner_opr := 3 }]).endpoint_vars[1]? =
        some { owner_opr := 4, index := 1 } :=
  (C16_replacements_compose [{ owner_opr := 7 }, { owner_opr := 3 }]).2.2
    { apply := fun _ v => { owner_opr := v.owner_opr, index := 1 } }
    { apply := fun _ v => { owner_opr := v.owner_opr + 1, index := v.index } }
    1 { owner_opr := 3 } { owner_opr := 3, index := 1 } { owner_opr := 4, index := 1 }
    rfl rfl rfl

/-- C20: allocation retry bound. With defragmentation enabled, a request calls
`alloc_dynamic` at most twice. When the first call succeeds nothing else is
called. When it fails the defragmenter runs once and the allocation is retried
exactly once: the memory state after the request is the state after
`alloc_dynamic`, `defragment`, `alloc_dynamic` and no further call; a request
that fails once and then succeeds completes, and a request that fails twice
surfaces the allocation error after exactly two calls. -/
theorem C20_allocation_retry_bound {σ : Type} (options : ComputingGraph.Options)
    (allocator : SimulatedAllocator σ) (s : σ)
    (hdefrag : options.enable_var_mem_defragment = true) :
    nr_alloc_calls (alloc_var_dynamic options allocator s).events ≤ 2 ∧
    ((allocator.alloc_dynamic s).1 = true →
      (alloc_var_dynamic options allocator s).result = .ok () ∧
      (alloc_var_dynamic options allocator s).events = [AllocEvent.alloc_dynamic true] ∧
      (alloc_var_dynamic options allocator s).state = (allocator.alloc_dynamic s).2) ∧
    ((allocator.alloc_dynamic s).1 = false →
      nr_defragment (alloc_var_dynamic options allocator s).events = 1 ∧
      nr_alloc_calls (alloc_var_dynamic options allocator s).events = 2 ∧
      (alloc_var_dynamic options allocator s).state =
        (allocator.alloc_dynamic (allocator.defragment (allocator.alloc_dynamic s).2)).2) ∧
    ((allocator.alloc_dynamic s).1 = false →
      (allocator.alloc_dynamic (allocator.defragment (allocator.alloc_dynamic s).2)).1 = true →
      (alloc_var_dynamic options allocator s).result = .ok () ∧
      (alloc_var_dynamic options allocator s).events =
        [AllocEvent.alloc_dynamic false, AllocEvent.defragment,
          AllocEvent.alloc_dynamic true]) ∧
    ((allocator.alloc_dynamic s).1 = false →
      (allocator.alloc_dynamic (allocator.defragment (allocator.alloc_dynamic s).2)).1 = false →
      (alloc_var_dynamic options allocator s).result = .error MegBrainError.MemAllocError ∧
      (alloc_var_dynamic options allocator s).events =
        [AllocEvent.alloc_dynamic false, AllocEvent.defragment,
          AllocEvent.alloc_dynamic false]) := by
  simp only [alloc_var_dynamic, SimulatedAllocator.call_alloc_dynamic,
    SimulatedAllocator.call_defragment, AllocOutcome.events, AllocOutcome.state, hdefrag]
  rcases h1 : allocator.alloc_dynamic s with ⟨ok1, s1⟩
  cases ok1 with
  | true => simp [nr_alloc_calls]
  | false =>
    rcases h2 : allocator.alloc_dynamic (allocator.defragment s1) with ⟨ok2, s3⟩
    cases ok2 <;> simp [nr_alloc_calls, nr_defragment]

/-- Witness of C20: an allocator that always fails and whose state counts its
calls, under the default options. The request ends in the allocation error and
the state shows exactly two calls. -/
theorem C20_allocation_retry_bound_witness :
    (ComputingGraph.Options.default_constructed 8).enable_var_mem_defragment = true ∧
      (alloc_var_dynamic (ComputingGraph.Options.default_constructed 8)
        { alloc_dynamic := fun n => (false, n + 1), defragment := fun n => n }
        0).state = 2 ∧
      nr_alloc_calls (alloc_var_dynamic (ComputingGraph.Options.default_constructed 8)
        { alloc_dynamic := fun n => (false, n + 1), defragment := fun n => n }
        0).events = 2 :=
  ⟨rfl,
    ((C20_allocation_retry_bound (ComputingGraph.Options.default_constructed 8)
      { alloc_dynamic := fun n => (false, n + 1), defragment := fun n => n }
      0 rfl).2.2.1 rfl).2.2,
    ((C20_allocation_retry_bound (ComputingGraph.Options.default_constructed 8)
      { alloc_dynamic := fun n => (false, n + 1), defragment := fun n => n }
      0 rfl).2.2.1 rfl).2.1⟩

/-- A convolution produces as many channels as it has output channels. -/
theorem exec_length {P K : Type} (cv : gopt.ConvBias P K) (x : List (P → Int)) :
    (cv.exec x).length = cv.out_channels := by
  simp [gopt.ConvBias.exec]

/-- Reading a channel below the length of a slice gives the same value in the
sliced and in the full tensor. -/
theorem read_channel_of_take {P : Type} (t t' : List (P → Int)) (c : Nat)
    (h : t'.take t.length = t) (hc : c < t.length) (q : Option P) :
    gopt.read_channel t' c q = gopt.read_channel t c q := by
  have hget : t'[c]? = t[c]? := by
    conv_rhs => rw [← h]
    exact (List.getElem?_take_of_lt hc).symm
  cases q with
  | none => rfl
  | some q => simp only [gopt.read_channel, hget]

/-- One padded convolution on a padded input agrees with the original
convolution on the original channels. -/
theorem pad_conv_exec_take {P K : Type} (padded : Nat → Nat) (hpad : ∀ n, n ≤ padded n)
    (cv : gopt.ConvBias P K) (t t' : List (P → Int)) (h : t'.take t.length = t)
    (hin : cv.in_channels = t.length) :
    ((gopt.PaddingChannelPass.pad_conv padded cv).exec t').take (cv.exec t).length =
      cv.exec t := by
  rw [exec_length]
  simp only [gopt.ConvBias.exec, gopt.PaddingChannelPass.pad_conv, ← List.map_take,
    List.take_range, Nat.min_eq_left (hpad cv.out_channels)]
  apply List.map_congr_left
  intro o ho
  have ho' : o < cv.out_channels := List.mem_range.mp ho
  funext p
  simp only [ho', true_and, if_true]
  congr 2
  rw [← Finset.sum_subset (Finset.range_subset.mpr (hpad cv.in_channels))]
  · apply Finset.sum_congr rfl
    intro c hc
    have hc' : c < cv.in_channels := Finset.mem_range.mp hc
    simp only [hc', if_true]
    congr 1
    apply List.map_congr_left
    intro k _
    rw [read_channel_of_take t t' c h (hin ▸ hc')]
  · intro c _ hc
    have hc' : ¬ c < cv.in_channels := fun hlt => hc (Finset.mem_range.mpr hlt)
    simp [hc']

/-- The padded chain agrees with the original chain on the original channels,
from any pair of tensors that agree on the original channels. -/
theorem pad_chain_exec_take {P K : Type} (padded : Nat → Nat) (hpad : ∀ n, n ≤ padded n)
    (layers : List (gopt.ConvBias P K)) (t t' : List (P → Int))
    (h : t'.take t.length = t) (hvalid : gopt.chain_valid t.length layers = true) :
    (gopt.exec_chain (layers.map (gopt.PaddingChannelPass.pad_conv padded)) t').take
        (gopt.exec_chain layers t).length = gopt.exec_chain layers t := by
  induction layers generalizing t t' with
  | nil => simpa [gopt.exec_chain] using h
  | cons cv rest ih =>
    simp only [gopt.chain_valid, Bool.and_eq_true, beq_iff_eq] at hvalid
    simp only [gopt.exec_chain, List.map_cons, List.foldl_cons]
    apply ih
    · exact pad_conv_exec_take padded hpad cv t t' h hvalid.1
    · rw [exec_length]; exact hvalid.2

/-- The channel count at the end of a chain is the channel count of its result. -/
theorem chain_channels_eq {P K : Type} (layers : List (gopt.ConvBias P K))
    (x : List (P → Int)) :
    gopt.chain_channels layers x.length = (gopt.exec_chain layers x).length := by
  induction layers generalizing x with
  | nil => rfl
  | cons cv rest ih =>
    simp only [gopt.chain_channels, gopt.exec_chain, List.foldl_cons]
    have := ih (cv.exec x)
    simp only [gopt.chain_channels, gopt.exec_chain, exec_length] at this
    exact this

/-- C19: channel-padding inertness. For every chain of convolutions whose
channel counts are padded by an alignment rule that never shrinks a count, every
padded convolution has the padded channel count, and the rewritten endpoint has
the channel count of the original endpoint and, for all inputs, exactly the
value of the unpadded computation. -/
theorem C19_channel_padding_inert {P K : Type} (padded : Nat → Nat)
    (hpad : ∀ n, n ≤ padded n) (layers : List (gopt.ConvBias P K)) (x : List (P → Int))
    (hvalid : gopt.chain_valid x.length layers = true) :
    (∀ cv ∈ layers, ∀ t : List (P → Int),
      ((gopt.PaddingChannelPass.pad_conv padded cv).exec t).length = padded cv.out_channels) ∧
    (gopt.PaddingChannelPass.apply padded layers x).length =
      (gopt.exec_chain layers x).length ∧
    gopt.PaddingChannelPass.apply padded layers x = gopt.exec_chain layers x := by
  have hx : (gopt.PaddingChannelPass.pad_tensor (padded x.length) x).take x.length = x := by
    simp [gopt.PaddingChannelPass.pad_tensor]
  have hmain : gopt.PaddingChannelPass.apply padded layers x = gopt.exec_chain layers x := by
    unfold gopt.PaddingChannelPass.apply
    rw [chain_channels_eq]
    exact pad_chain_exec_take padded hpad layers x _ hx hvalid
  exact ⟨fun cv _ t => by rw [exec_length]; rfl, by rw [hmain], hmain⟩

/-- Witness of C19: the channel counts of the test (3 to 20 to 24 to 20, each
padded to a multiple of 32) with pointwise kernels. -/
theorem C19_channel_padding_inert_witness :
    ((20 + 31) / 32 * 32 = 32 ∧ (24 + 31) / 32 * 32 = 32 ∧ (18 + 31) / 32 * 32 = 32) ∧
    gopt.PaddingChannelPass.apply (fun n => (n + 31) / 32 * 32)
        [{ in_channels := 3, out_channels := 20, weight := fun o c _ => (o : Int) - c,
           bias := fun o => o, kernel := [()], sample := fun _ (p : Nat) => some p,
           nonlinearity := fun v => max v 0 },
         { in_channels := 20, out_channels := 24, weight := fun o c _ => (o : Int) + c,
           bias := fun _ => 1, kernel := [()], sample := fun _ (p : Nat) => some p,
           nonlinearity := fun v => max (v + 1) 0 },
         { in_channels := 24, out_channels := 20, weight := fun o c _ => (o : Int) * c,
           bias := fun _ => 2, kernel := [()], sample := fun _ (p : Nat) => some p,
           nonlinearity := fun v => max v 0 }]
        [fun p => p, fun p => 2 * p, fun _ => 5] =
      gopt.exec_chain
        [{ in_channels := 3, out_channels := 20, weight := fun o c _ => (o : Int) - c,
           bias := fun o => o, kernel := [()], sample := fun _ (p : Nat) => some p,
           nonlinearity := fun v => max v 0 },
         { in_channels := 20, out_channels := 24, weight := fun o c _ => (o : Int) + c,
           bias := fun _ => 1, kernel := [()], sample := fun _ (p : Nat) => some p,
           nonlinearity := fun v => max (v + 1) 0 },
         { in_channels := 24, out_channels := 20, weight := fun o c _ => (o : Int) * c,
           bias := fun _ => 2, kernel := [()], sample := fun _ (p : Nat) => some p,
           nonlinearity := fun v => max v 0 }]
        [fun p => p, fun p => 2 * p, fun _ => 5] :=
  ⟨⟨rfl, rfl, rfl⟩,
    (C19_channel_padding_inert (fun n => (n + 31) / 32 * 32)
      (fun n => by show n ≤ (n + 31) / 32 * 32; omega)
      [{ in_channels := 3, out_channels := 20, weight := fun o c _ => (o : Int) - c,
         bias := fun o => o, kernel := [()], sample := fun _ (p : Nat) => some p,
         nonlinearity := fun v => max v 0 },
       { in_channels := 20, out_channels := 24, weight := fun o c _ => (o : Int) + c,
         bias := fun _ => 1, kernel := [()], sample := fun _ (p : Nat) => some p,
         nonlinearity := fun v => max (v + 1) 0 },
       { in_channels := 24, out_channels := 20, weight := fun o c _ => (o : Int) * c,
         bias := fun _ => 2, kernel := [()], sample := fun _ (p : Nat) => some p,
         nonlinearity := fun v => max v 0 }]
      [fun p => p, fun p => 2 * p, fun _ => 5] rfl).2.2⟩

/-- Contribution of one rewritten operator to the counter of the test: the
number of its inputs produced by a relayout operator when it is a convolution. -/
theorem relayout_format_nr_eq_sum (Convolution : Nat) (oprs : List gopt.ConvertedOpr) :
    gopt.relayout_format_nr Convolution oprs =
      (oprs.map fun c =>
        if c.type = Convolution
        then (c.input.filter gopt.ConvertedInput.is_relayout_format).length else 0).sum := by
  have hgen : ∀ (l : List gopt.ConvertedOpr) (init : Nat),
      l.foldl (fun nr opr =>
          if opr.type == Convolution then
            opr.input.foldl (fun n input => if input.is_relayout_format then n + 1 else n) nr
          else nr) init =
        init + (l.map fun c =>
          if c.type = Convolution
          then (c.input.filter gopt.ConvertedInput.is_relayout_format).length else 0).sum := by
    intro l
    induction l with
    | nil => intro init; simp
    | cons c rest ih =>
      intro init
      have hinner : ∀ (inp : List gopt.ConvertedInput) (n : Nat),
          inp.foldl (fun n input => if input.is_relayout_format then n + 1 else n) n =
            n + (inp.filter gopt.ConvertedInput.is_relayout_format).length := by
        intro inp
        induction inp with
        | nil => intro n; simp
        | cons a r ihr =>
          intro n
          simp only [List.foldl_cons, List.filter_cons]
          by_cases ha : a.is_relayout_format = true
          · simp only [ha, if_true, List.length_cons]
            rw [ihr, Nat.add_assoc, Nat.add_comm 1]
          · simp only [ha, if_false, Bool.false_eq_true]
            rw [ihr]
      simp only [List.foldl_cons, List.map_cons, List.sum_cons]
      by_cases hc : c.type = Convolution
      · simp only [hc, beq_self_eq_true, if_true]
        rw [ih, hinner]; omega
      · have hb : (c.type == Convolution) = false := by simpa using hc
        simp only [hb, hc, if_false, Bool.false_eq_true]
        rw [ih]; omega
  have := hgen oprs 0
  simpa [gopt.relayout_format_nr] using this

/-- The conversion pass extends the operators done so far by one rewritten
operator per operator, each computed from the rewritten operators before it. -/
theorem convert_format_getElem (classify : OperatorNodeBase → gopt.LayoutClass)
    (target : LayoutTransform) (oprs : List OperatorNodeBase) :
    ∀ done : List gopt.ConvertedOpr,
      (gopt.convert_format classify target oprs done).length = done.length + oprs.length ∧
      (gopt.convert_format classify target oprs done).take done.length = done ∧
      ∀ (i : Nat) (opr : OperatorNodeBase), oprs[i]? = some opr →
        (gopt.convert_format classify target oprs done)[done.length + i]? =
          some (gopt.convert_opr classify target
            ((gopt.convert_format classify target oprs done).take (done.length + i)) opr) := by
  induction oprs with
  | nil =>
    intro done
    refine ⟨rfl, ?_, fun i opr h => by simp at h⟩
    simp [gopt.convert_format]
  | cons a rest ih =>
    intro done
    have hstep : gopt.convert_format classify target (a :: rest) done =
        gopt.convert_format classify target rest
          (done ++ [gopt.convert_opr classify target done a]) := by
      simp [gopt.convert_format]
    rw [hstep]
    obtain ⟨h1, h2, h3⟩ := ih (done ++ [gopt.convert_opr classify target done a])
    have hlen : (done ++ [gopt.convert_opr classify target done a]).length =
        done.length + 1 := by simp
    rw [hlen] at h1 h2 h3
    have htake : (gopt.convert_format classify target rest
        (done ++ [gopt.convert_opr classify target done a])).take done.length = done := by
      have := congrArg (List.take done.length) h2
      rw [List.take_take, Nat.min_eq_left (Nat.le_succ _), List.take_left] at this
      exact this
    refine ⟨by rw [h1, List.length_cons]; omega, htake, fun i opr hi => ?_⟩
    cases i with
    | zero =>
      simp only [List.getElem?_cons_zero, Option.some.injEq] at hi
      subst hi
      rw [Nat.add_zero, htake, ← List.getElem?_take_of_lt (Nat.lt_succ_self done.length), h2]
      simp
    | succ i =>
      simp only [List.getElem?_cons_succ] at hi
      have := h3 i opr hi
      rw [show done.length + (i + 1) = done.length + 1 + i by omega]
      exact this

/-- Rewriting an operator depends only on the formats of its inputs. -/
theorem convert_opr_congr (classify : OperatorNodeBase → gopt.LayoutClass)
    (target : LayoutTransform) (d1 d2 : List gopt.ConvertedOpr) (opr : OperatorNodeBase)
    (h : ∀ v ∈ opr.input, gopt.var_format d1 v = gopt.var_format d2 v) :
    gopt.convert_opr classify target d1 opr = gopt.convert_opr classify target d2 opr := by
  have hall : (opr.input.all fun v => gopt.var_format d1 v == target) =
      (opr.input.all fun v => gopt.var_format d2 v == target) := by
    rw [Bool.eq_iff_iff, List.all_eq_true, List.all_eq_true]
    exact ⟨fun hx v hv => by rw [← h v hv]; exact hx v hv,
      fun hx v hv => by rw [h v hv]; exact hx v hv⟩
  simp only [gopt.convert_opr, hall]
  congr 1
  apply List.map_congr_left
  intro v hv
  rw [h v hv]

/-- On an acyclic store every rewritten operator is the rewriting of its
operator against the whole rewritten graph. -/
theorem convert_format_fixpoint (classify : OperatorNodeBase → gopt.LayoutClass)
    (target : LayoutTransform) (g : OprStore) (hacyc : g.acyclic = true) :
    (gopt.convert_format classify target g.oprs []).length = g.oprs.length ∧
    ∀ (i : Nat) (opr : OperatorNodeBase), g.oprs[i]? = some opr →
      (gopt.convert_format classify target g.oprs [])[i]? =
        some (gopt.convert_opr classify target
          (gopt.convert_format classify target g.oprs []) opr) := by
  obtain ⟨h1, -, h3⟩ := convert_format_getElem classify target g.oprs []
  refine ⟨by simpa using h1, fun i opr hi => ?_⟩
  have := h3 i opr hi
  simp only [List.length_nil, Nat.zero_add] at this
  rw [this]
  congr 1
  apply convert_opr_congr
  intro v hv
  have hlt := acyclic_input_lt g hacyc i opr hi v hv
  simp only [gopt.var_format, List.getElem?_take_of_lt hlt]

/-- The format of the variable produced at a position of an acyclic store. -/
theorem var_format_at (classify : OperatorNodeBase → gopt.LayoutClass)
    (target : LayoutTransform) (g : OprStore) (hacyc : g.acyclic = true) (p : Nat)
    (opr : OperatorNodeBase) (hp : g.oprs[p]? = some opr) (v : VarNode)
    (hv : v.owner_opr = p) :
    gopt.var_format (gopt.convert_format classify target g.oprs []) v =
      (gopt.convert_opr classify target
        (gopt.convert_format classify target g.oprs []) opr).format := by
  simp only [gopt.var_format, hv, (convert_format_fixpoint classify target g hacyc).2 p opr hp]

/-- The relayouts that remain on the inputs of a convolution stage after
constant fusion: one when the previous stage is in the default format, none
when it is in the target format. -/
theorem conv_stage_relayouts (classify : OperatorNodeBase → gopt.LayoutClass)
    (is_constant : OperatorNodeBase → Bool) (target : LayoutTransform)
    (htarget : target ≠ LayoutTransform.DEFAULT) (g : OprStore)
    (done : List gopt.ConvertedOpr) (opr : OperatorNodeBase) (prev : Nat)
    (f : LayoutTransform) (hcls : classify opr = gopt.LayoutClass.aware)
    (hone : (opr.input.filter fun v => !gopt.is_constant_var is_constant g v).length = 1)
    (hown : ∀ v ∈ opr.input,
      gopt.is_constant_var is_constant g v = true ∨ v.owner_opr = prev)
    (hfmt : ∀ v : VarNode, v.owner_opr = prev → gopt.var_format done v = f)
    (hf : f = target ∨ f = LayoutTransform.DEFAULT) :
    ((gopt.param_fuse_opr is_constant g
        (gopt.convert_opr classify target done opr)).input.filter
        gopt.ConvertedInput.is_relayout_format).length =
      if f = LayoutTransform.DEFAULT then 1 else 0 := by
  have hinput : (gopt.param_fuse_opr is_constant g
      (gopt.convert_opr classify target done opr)).input =
      opr.input.map fun v =>
        gopt.fuse_constant_input is_constant g
          (if gopt.var_format done v == target then gopt.ConvertedInput.direct v
            else gopt.ConvertedInput.relayout_format v) := by
    simp [gopt.param_fuse_opr, gopt.convert_opr, hcls, List.map_map, Function.comp_def]
  rw [hinput, List.filter_map, List.length_map]
  rcases hf with rfl | rfl
  · rw [if_neg htarget]
    rw [List.length_eq_zero, List.filter_eq_nil_iff]
    intro v hv
    rcases hown v hv with hc | ho
    · by_cases hft : gopt.var_format done v = f <;>
        simp [Function.comp_def, gopt.fuse_constant_input, hft, hc,
          gopt.ConvertedInput.is_relayout_format]
    · simp [Function.comp_def, gopt.fuse_constant_input, hfmt v ho,
        gopt.ConvertedInput.is_relayout_format]
  · rw [if_pos rfl, ← hone]
    congr 1
    apply List.filter_congr
    intro v hv
    have hne : ¬ LayoutTransform.DEFAULT = target := fun h => htarget h.symm
    rcases hown v hv with hc | ho
    · by_cases hft : gopt.var_format done v = target <;>
        simp [Function.comp_def, gopt.fuse_constant_input, hft, hc,
          gopt.ConvertedInput.is_relayout_format]
    · cases hc : gopt.is_constant_var is_constant g v <;>
        simp [Function.comp_def, gopt.fuse_constant_input, hfmt v ho, hne, hc,
          gopt.ConvertedInput.is_relayout_format]

/-- A bypassable concatenation stage keeps the format of the previous stage. -/
theorem concat_stage_format (classify : OperatorNodeBase → gopt.LayoutClass)
    (target : LayoutTransform) (htarget : target ≠ LayoutTransform.DEFAULT)
    (done : List gopt.ConvertedOpr) (opr : OperatorNodeBase) (prev : Nat)
    (f : LayoutTransform) (hcls : classify opr = gopt.LayoutClass.oblivious)
    (hne : opr.input ≠ []) (hown : ∀ v ∈ opr.input, v.owner_opr = prev)
    (hfmt : ∀ v : VarNode, v.owner_opr = prev → gopt.var_format done v = f)
    (hf : f = target ∨ f = LayoutTransform.DEFAULT) :
    (gopt.convert_opr classify target done opr).format = f := by
  have hall : ∀ v ∈ opr.input, gopt.var_format done v = f := fun v hv => hfmt v (hown v hv)
  have hcond : (opr.input.all fun v => gopt.var_format done v == target) =
      decide (f = target) := by
    rcases hf with rfl | rfl
    · simp only [decide_True, List.all_eq_true, beq_iff_eq]
      exact hall
    · have hne' : ¬ LayoutTransform.DEFAULT = target := fun h => htarget h.symm
      simp only [hne', decide_False]
      obtain ⟨v, hv⟩ := List.exists_mem_of_ne_nil _ hne
      rw [List.all_eq_false]
      exact ⟨v, hv, by simp [hall v hv, hne']⟩
  have hemp : opr.input.isEmpty = false := by simpa using hne
  simp only [gopt.convert_opr, hcls, hcond, hemp, Bool.not_false, Bool.true_and,
    decide_eq_true_eq]
  rcases hf with rfl | rfl
  · simp
  · exact if_neg fun h => htarget h.symm

/-- Unfolding of a chain of stages at its first stage. -/
theorem sequential_chain_cons (classify : OperatorNodeBase → gopt.LayoutClass)
    (is_constant : OperatorNodeBase → Bool) (Convolution : Nat) (g : OprStore)
    (prev p : Nat) (rest : List Nat)
    (h : gopt.sequential_chain classify is_constant Convolution g prev (p :: rest) = true) :
    gopt.sequential_chain classify is_constant Convolution g p rest = true ∧
    ∃ opr, g.oprs[p]? = some opr ∧
      ((classify opr = gopt.LayoutClass.aware ∧ opr.type = Convolution ∧
          (opr.input.filter fun v => !gopt.is_constant_var is_constant g v).length = 1 ∧
          ∀ v ∈ opr.input,
            gopt.is_constant_var is_constant g v = true ∨ v.owner_opr = prev) ∨
        (classify opr = gopt.LayoutClass.oblivious ∧ opr.type ≠ Convolution ∧
          opr.input ≠ [] ∧ ∀ v ∈ opr.input, v.owner_opr = prev)) := by
  simp only [gopt.sequential_chain, Bool.and_eq_true] at h
  obtain ⟨hp, hrest⟩ := h
  refine ⟨hrest, ?_⟩
  cases hg : g.oprs[p]? with
  | none => simp [hg] at hp
  | some opr =>
    refine ⟨opr, rfl, ?_⟩
    simp only [hg] at hp
    cases hcls : classify opr with
    | aware =>
      simp only [hcls, Bool.and_eq_true, beq_iff_eq, List.all_eq_true, Bool.or_eq_true] at hp
      exact Or.inl ⟨rfl, hp.1.1, hp.1.2, hp.2⟩
    | oblivious =>
      simp only [hcls, Bool.and_eq_true, bne_iff_ne, ne_eq, Bool.not_eq_true',
        List.isEmpty_eq_false, List.all_eq_true, beq_iff_eq] at hp
      exact Or.inr ⟨rfl, hp.1.1, hp.1.2, hp.2⟩
    | other => simp [hcls] at hp

/-- The stages of a chain in an acyclic store stand at increasing positions
after the operator the chain reads. -/
theorem sequential_chain_increasing (classify : OperatorNodeBase → gopt.LayoutClass)
    (is_constant : OperatorNodeBase → Bool) (Convolution : Nat) (g : OprStore)
    (hacyc : g.acyclic = true) (stages : List Nat) :
    ∀ prev : Nat,
      gopt.sequential_chain classify is_constant Convolution g prev stages = true →
      (∀ p ∈ stages, prev < p) ∧ stages.Pairwise (fun a b => a < b) := by
  induction stages with
  | nil => intro prev _; exact ⟨fun p hp => by simp at hp, List.Pairwise.nil⟩
  | cons p rest ih =>
    intro prev h
    obtain ⟨hrest, opr, hp, hcase⟩ :=
      sequential_chain_cons classify is_constant Convolution g prev p rest h
    obtain ⟨h1, h2⟩ := ih p hrest
    have hlt : prev < p := by
      rcases hcase with ⟨-, -, hone, hown⟩ | ⟨-, -, hne, hown⟩
      · have hex : ∃ v, v ∈ opr.input.filter
            fun v => !gopt.is_constant_var is_constant g v := by
          apply List.exists_mem_of_ne_nil
          intro hnil
          rw [hnil] at hone
          simp at hone
        obtain ⟨v, hv⟩ := hex
        obtain ⟨hvin, hvc⟩ := List.mem_filter.mp hv
        rcases hown v hvin with hc | ho
        · rw [hc] at hvc; simp at hvc
        · exact ho ▸ acyclic_input_lt g hacyc p opr hp v hvin
      · obtain ⟨v, hv⟩ := List.exists_mem_of_ne_nil _ hne
        exact hown v hv ▸ acyclic_input_lt g hacyc p opr hp v hv
    refine ⟨fun q hq => ?_, List.Pairwise.cons h1 h2⟩
    rcases List.mem_cons.mp hq with rfl | hmem
    · exact hlt
    · exact Nat.lt_trans hlt (h1 q hmem)

/-- Along a chain of stages that follows an operator whose output has format
`f`, either the target or the default format, the relayouts left on convolution
inputs add up to one exactly when the chain starts in the default format and
contains a convolution. -/
theorem sequential_chain_relayouts (classify : OperatorNodeBase → gopt.LayoutClass)
    (is_constant : OperatorNodeBase → Bool) (Convolution : Nat)
    (target : LayoutTransform) (htarget : target ≠ LayoutTransform.DEFAULT)
    (g : OprStore) (hacyc : g.acyclic = true) (stages : List Nat) :
    ∀ (prev : Nat) (f : LayoutTransform),
      (∀ v : VarNode, v.owner_opr = prev →
        gopt.var_format (gopt.convert_format classify target g.oprs []) v = f) →
      (f = target ∨ f = LayoutTransform.DEFAULT) →
      gopt.sequential_chain classify is_constant Convolution g prev stages = true →
      (stages.map fun p =>
          match g.oprs[p]? with
          | some opr =>
            gopt.relayout_format_inputs Convolution
              (gopt.param_fuse_opr is_constant g
                (gopt.convert_opr classify target
                  (gopt.convert_format classify target g.oprs []) opr))
          | none => 0).sum =
        if f = LayoutTransform.DEFAULT ∧
            ∃ p ∈ stages, ∃ opr, g.oprs[p]? = some opr ∧
              classify opr = gopt.LayoutClass.aware
        then 1 else 0 := by
  induction stages with
  | nil => intro prev f _ _ _; simp
  | cons p rest ih =>
    intro prev f hfmt hf h
    obtain ⟨hrest, opr, hp, hcase⟩ :=
      sequential_chain_cons classify is_constant Convolution g prev p rest h
    have hnext : ∀ v : VarNode, v.owner_opr = p →
        gopt.var_format (gopt.convert_format classify target g.oprs []) v =
          (gopt.convert_opr classify target
            (gopt.convert_format classify target g.oprs []) opr).format :=
      fun v hv => var_format_at classify target g hacyc p opr hp v hv
    simp only [List.map_cons, List.sum_cons, hp]
    rcases hcase with ⟨hcls, htype, hone, hown⟩ | ⟨hcls, htype, hne, hown⟩
    · have hformat : (gopt.convert_opr classify target
          (gopt.convert_format classify target g.oprs []) opr).format = target := by
        simp [gopt.convert_opr, hcls]
      rw [ih p target (fun v hv => (hnext v hv).trans hformat) (Or.inl rfl) hrest]
      have hctype : (gopt.param_fuse_opr is_constant g (gopt.convert_opr classify target
          (gopt.convert_format classify target g.oprs []) opr)).type = Convolution := htype
      rw [gopt.relayout_format_inputs, if_pos hctype,
        conv_stage_relayouts classify is_constant target htarget g _ opr prev f hcls hone hown
          hfmt hf]
      have hex : ∃ q ∈ p :: rest, ∃ o, g.oprs[q]? = some o ∧
          classify o = gopt.LayoutClass.aware :=
        ⟨p, List.mem_cons_self _ _, opr, hp, hcls⟩
      simp only [htarget, false_and, if_false, hex, and_true, Nat.add_zero]
    · have hformat := concat_stage_format classify target htarget
        (gopt.convert_format classify target g.oprs []) opr prev f hcls hne hown hfmt hf
      rw [ih p f (fun v hv => (hnext v hv).trans hformat) hf hrest]
      have hctype : ¬ (gopt.param_fuse_opr is_constant g (gopt.convert_opr classify target
          (gopt.convert_format classify target g.oprs []) opr)).type = Convolution := htype
      rw [gopt.relayout_format_inputs, if_neg hctype, Nat.zero_add]
      have hex : (∃ q ∈ p :: rest, ∃ o, g.oprs[q]? = some o ∧
          classify o = gopt.LayoutClass.aware) ↔
          ∃ q ∈ rest, ∃ o, g.oprs[q]? = some o ∧ classify o = gopt.LayoutClass.aware := by
        constructor
        · rintro ⟨q, hq, o, ho, hc⟩
          rcases List.mem_cons.mp hq with rfl | hmem
          · rw [hp] at ho
            obtain rfl := Option.some.inj ho
            rw [hcls] at hc
            cases hc
          · exact ⟨q, hmem, o, ho, hc⟩
        · rintro ⟨q, hq, o, ho, hc⟩
          exact ⟨q, List.mem_cons_of_mem _ hq, o, ho, hc⟩
      simp only [hex]

/-- The sum of a function over a list is the sum over its positions. -/
theorem sum_map_eq_sum_range {α : Type} (l : List α) (h : α → Nat) :
    (l.map h).sum =
      (Finset.range l.length).sum fun i =>
        match l[i]? with
        | some a => h a
        | none => 0 := by
  induction l using List.reverseRecOn with
  | nil => simp
  | append_singleton l a ih =>
    rw [List.map_append, List.sum_append, List.length_append, List.length_singleton,
      Finset.sum_range_succ, ih]
    congr 1
    · apply Finset.sum_congr rfl
      intro i hi
      rw [List.getElem?_append_left (Finset.mem_range.mp hi)]
    · simp

/-- Every stage of a chain is a stored operator, either a layout-aware
convolution or a layout-oblivious operator that is not a convolution. -/
theorem sequential_chain_stage (classify : OperatorNodeBase → gopt.LayoutClass)
    (is_constant : OperatorNodeBase → Bool) (Convolution : Nat) (g : OprStore)
    (stages : List Nat) :
    ∀ prev : Nat,
      gopt.sequential_chain classify is_constant Convolution g prev stages = true →
      ∀ p ∈ stages, ∃ opr, g.oprs[p]? = some opr ∧
        ((classify opr = gopt.LayoutClass.aware ∧ opr.type = Convolution) ∨
          (classify opr = gopt.LayoutClass.oblivious ∧ opr.type ≠ Convolution)) := by
  induction stages with
  | nil => intro prev _ p hp; simp at hp
  | cons q rest ih =>
    intro prev h p hp
    obtain ⟨hrest, opr, hq, hcase⟩ :=
      sequential_chain_cons classify is_constant Convolution g prev q rest h
    rcases List.mem_cons.mp hp with rfl | hmem
    · refine ⟨opr, hq, ?_⟩
      rcases hcase with ⟨h1, h2, -, -⟩ | ⟨h1, h2, -, -⟩
      · exact Or.inl ⟨h1, h2⟩
      · exact Or.inr ⟨h1, h2⟩
    · exact ih q hrest p hmem

/-- Constant fusion does not change the format of a variable. -/
theorem var_format_param_fuse (is_constant : OperatorNodeBase → Bool) (g : OprStore)
    (oprs : List gopt.ConvertedOpr) (v : VarNode) :
    gopt.var_format (gopt.param_fuse is_constant g oprs) v = gopt.var_format oprs v := by
  simp only [gopt.var_format, gopt.param_fuse, List.getElem?_map]
  cases oprs[v.owner_opr]? with
  | none => rfl
  | some c => rfl

/-- On an acyclic store the optimized graph is the store with every operator
rewritten against the converted graph and then constant-fused. -/
theorem optimize_for_inference_eq_map (classify : OperatorNodeBase → gopt.LayoutClass)
    (is_constant : OperatorNodeBase → Bool) (options : GraphCommonOptimizeOptions)
    (g : OprStore) (hacyc : g.acyclic = true) :
    gopt.optimize_for_inference classify is_constant options g =
      g.oprs.map fun opr =>
        gopt.param_fuse_opr is_constant g
          (gopt.convert_opr classify options.layout_transform
            (gopt.convert_format classify options.layout_transform g.oprs []) opr) := by
  obtain ⟨hlen, hfix⟩ := convert_format_fixpoint classify options.layout_transform g hacyc
  have hR : gopt.convert_format classify options.layout_transform g.oprs [] =
      g.oprs.map (gopt.convert_opr classify options.layout_transform
        (gopt.convert_format classify options.layout_transform g.oprs [])) := by
    apply List.ext_getElem?
    intro n
    cases hn : g.oprs[n]? with
    | some opr => rw [hfix n opr hn, List.getElem?_map, hn]; rfl
    | none =>
      rw [List.getElem?_map, hn]
      have hge : g.oprs.length ≤ n := List.getElem?_eq_none_iff.mp hn
      exact List.getElem?_eq_none_iff.mpr (hlen ▸ hge)
  unfold gopt.optimize_for_inference gopt.param_fuse
  conv_lhs => rw [hR]
  rw [List.map_map]
  rfl

/-- C18: layout-island boundary minimality. After `optimize_for_inference` with
`enable_nhwcd4()`, in a graph whose convolutions are the convolution stages of
one chain of sequential stages (convolutions reading the previous stage and
constant weights, interspersed with bypassable concatenations, at least one
convolution) that starts from a variable in the default layout, the number of
convolution inputs produced by a relayout operator is exactly 1, and every
convolution computes in the NHWCD4 format. -/
theorem C18_layout_island_boundary (classify : OperatorNodeBase → gopt.LayoutClass)
    (is_constant : OperatorNodeBase → Bool) (Convolution : Nat) (g : OprStore)
    (src : Nat) (stages : List Nat)
    (options : GraphCommonOptimizeOptions) (hopt : enable_nhwcd4 {} = .ok options)
    (hacyc : g.acyclic = true)
    (hconvs : ∀ (i : Nat) (opr : OperatorNodeBase),
      g.oprs[i]? = some opr → opr.type = Convolution → i ∈ stages)
    (hsrc : ∀ v : VarNode, v.owner_opr = src →
      gopt.var_format (gopt.optimize_for_inference classify is_constant options g) v =
        LayoutTransform.DEFAULT)
    (hseq : gopt.sequential_chain classify is_constant Convolution g src stages = true)
    (hconv : ∃ p ∈ stages, ∃ opr, g.oprs[p]? = some opr ∧
      classify opr = gopt.LayoutClass.aware) :
    gopt.relayout_format_nr Convolution
        (gopt.optimize_for_inference classify is_constant options g) = 1 ∧
      ∀ c ∈ gopt.optimize_for_inference classify is_constant options g,
        c.type = Convolution → c.format = LayoutTransform.NHWCD4 := by
  have ho : options = { layout_transform := LayoutTransform.NHWCD4 } := by
    have h : enable_nhwcd4 {} = .ok { layout_transform := LayoutTransform.NHWCD4 } := rfl
    rw [h] at hopt
    exact (Except.ok.inj hopt).symm
  subst ho
  have htarget : LayoutTransform.NHWCD4 ≠ LayoutTransform.DEFAULT := by decide
  have hmap := optimize_for_inference_eq_map classify is_constant
    { layout_transform := LayoutTransform.NHWCD4 } g hacyc
  have hsrc' : ∀ v : VarNode, v.owner_opr = src →
      gopt.var_format (gopt.convert_format classify LayoutTransform.NHWCD4 g.oprs []) v =
        LayoutTransform.DEFAULT := by
    intro v hv
    have := hsrc v hv
    rw [gopt.optimize_for_inference, var_format_param_fuse] at this
    exact this
  have hstage := sequential_chain_stage classify is_constant Convolution g stages src hseq
  obtain ⟨-, hpw⟩ :=
    sequential_chain_increasing classify is_constant Convolution g hacyc stages src hseq
  have hnodup : stages.Nodup := hpw.imp fun h => Nat.ne_of_lt h
  have hchain := sequential_chain_relayouts classify is_constant Convolution
    LayoutTransform.NHWCD4 htarget g hacyc stages src LayoutTransform.DEFAULT hsrc'
    (Or.inr rfl) hseq
  rw [if_pos ⟨rfl, hconv⟩] at hchain
  rw [hmap]
  constructor
  · rw [relayout_format_nr_eq_sum, List.map_map]
    have hsum := sum_map_eq_sum_range g.oprs
      ((fun c : gopt.ConvertedOpr =>
          if c.type = Convolution
          then (c.input.filter gopt.ConvertedInput.is_relayout_format).length else 0) ∘
        fun opr =>
          gopt.param_fuse_opr is_constant g
            (gopt.convert_opr classify LayoutTransform.NHWCD4
              (gopt.convert_format classify LayoutTransform.NHWCD4 g.oprs []) opr))
    rw [hsum, ← hchain, ← List.sum_toFinset _ hnodup]
    symm
    have hsub : stages.toFinset ⊆ Finset.range g.oprs.length := by
      intro p hp
      obtain ⟨opr, hopr, -⟩ := hstage p (List.mem_toFinset.mp hp)
      exact Finset.mem_range.mpr (List.getElem?_eq_some_iff.mp hopr).1
    refine Eq.trans (Finset.sum_subset hsub ?_) ?_
    · intro i _ hi
      cases hg : g.oprs[i]? with
      | none => rfl
      | some opr =>
        have hty : ¬ opr.type = Convolution :=
          fun h => hi (List.mem_toFinset.mpr (hconvs i opr hg h))
        show gopt.relayout_format_inputs Convolution _ = 0
        rw [gopt.relayout_format_inputs]
        exact if_neg hty
    · apply Finset.sum_congr rfl
      intro i _
      cases g.oprs[i]? with
      | none => rfl
      | some opr => rfl
  · intro c hc hty
    obtain ⟨opr, hmem, rfl⟩ := List.mem_map.mp hc
    obtain ⟨i, hi, hget⟩ := List.getElem_of_mem hmem
    have hopr : g.oprs[i]? = some opr := List.getElem?_eq_some_iff.mpr ⟨hi, hget⟩
    have htyo : opr.type = Convolution := hty
    obtain ⟨o, ho, hcase⟩ := hstage i (hconvs i opr hopr htyo)
    rw [hopr] at ho
    obtain rfl := Option.some.inj ho
    rcases hcase with ⟨hcls, -⟩ | ⟨-, hne⟩
    · simp [gopt.param_fuse_opr, gopt.convert_opr, hcls]
    · exact absurd htyo hne

/-- Witness of C18: the graph of the test `concatbypass`, whose convolutions
take a data input and a constant weight; the chain starts at the concatenation
at position 5 and runs through the positions 8 to 14. -/
theorem C18_layout_island_boundary_witness :
    gopt.concatbypass_graph.acyclic = true ∧
      gopt.sequential_chain gopt.concatbypass_classify gopt.concatbypass_is_constant 2
        gopt.concatbypass_graph 5 [8, 9, 10, 11, 12, 13, 14] = true ∧
      gopt.relayout_format_nr 2
        (gopt.optimize_for_inference gopt.concatbypass_classify
          gopt.concatbypass_is_constant { layout_transform := LayoutTransform.NHWCD4 }
          gopt.concatbypass_graph) = 1 :=
  ⟨by decide, by decide,
    (C18_layout_island_boundary gopt.concatbypass_classify gopt.concatbypass_is_constant 2
      gopt.concatbypass_graph 5 [8, 9, 10, 11, 12, 13, 14]
      { layout_transform := LayoutTransform.NHWCD4 } rfl (by decide)
      (fun i opr h hty => by
        have hi : i < 15 := (List.getElem?_eq_some_iff.mp h).1
        interval_cases i <;> simp [gopt.concatbypass_graph] at h <;> subst h <;>
          simp at hty ⊢)
      (fun v hv => by
        have hv5 : v.owner_opr = 5 := hv
        unfold gopt.var_format
        rw [hv5]
        rfl)
      (by decide)
      ⟨8, by decide, _, rfl, rfl⟩).1⟩

/-- C23: `enable_<fmt>()` succeeds if and only if `layout_transform` is `DEFAULT`
beforehand. In particular it is not idempotent: on options where the format is
already selected it fails the assertion, so a second call right after a
successful one fails. -/
theorem C23_enable_layout_iff_default (F : LayoutFormat) (o : GraphCommonOptimizeOptions) :
    ((∃ o' : GraphCommonOptimizeOptions, F.enable o = .ok o') ↔
      o.layout_transform = LayoutTransform.DEFAULT) ∧
    (o.layout_transform = F.capital → F.enable o = .error MegBrainError.AssertionError) ∧
    (∀ o1 : GraphCommonOptimizeOptions, F.enable o = .ok o1 →
      F.enable o1 = .error MegBrainError.AssertionError) := by
  refine ⟨⟨?_, fun h => ⟨_, enable_of_default F o h⟩⟩, ?_, ?_⟩
  · rintro ⟨o', h⟩
    by_contra hne
    rw [enable_of_selected F o hne] at h
    cases h
  · intro h
    exact enable_of_selected F o (h ▸ (capital_injective F F).2)
  · intro o1 h
    by_cases hd : o.layout_transform = LayoutTransform.DEFAULT
    · rw [enable_of_default F o hd] at h
      obtain rfl := Except.ok.inj h
      exact enable_of_selected F _ (capital_injective F F).2
    · rw [enable_of_selected F o hd] at h
      cases h

/-- Witness of C23: `enable_nchw44()` on options that already select NCHW44. -/
theorem C23_enable_layout_iff_default_witness :
    enable_nchw44 { layout_transform := LayoutTransform.NCHW44 } =
      .error MegBrainError.AssertionError :=
  (C23_enable_layout_iff_default LayoutFormat.nchw44
    { layout_transform := LayoutTransform.NCHW44 }).2.1 rfl

/-- C24: every `disable_<fmt>()` clears whichever layout is selected. For all
layouts A and B, equal or different, and every options value that selects A,
`disable_B()` never fails, sets `layout_transform` to `DEFAULT` (so
`has_set_A()` becomes false), leaves the boolean flags unchanged, and a
following `enable_C()` succeeds for every layout C. -/
theorem C24_disable_clears_any_layout (A B : LayoutFormat) (o : GraphCommonOptimizeOptions)
    (_hA : o.layout_transform = A.capital) :
    Setter.call (Setter.disable_layout B) o = .ok (B.disable o) ∧
    (B.disable o).layout_transform = LayoutTransform.DEFAULT ∧
    A.has_set (B.disable o) = false ∧
    (B.disable o).f16_io_f32_comp = o.f16_io_f32_comp ∧
    (B.disable o).f16_io_comp = o.f16_io_comp ∧
    (B.disable o).fuse_conv_bias_nonlinearity = o.fuse_conv_bias_nonlinearity ∧
    (B.disable o).fuse_conv_bias_with_z = o.fuse_conv_bias_with_z ∧
    (B.disable o).weight_preprocess = o.weight_preprocess ∧
    (B.disable o).fuse_preprocess = o.fuse_preprocess ∧
    ∀ C : LayoutFormat, ∃ o' : GraphCommonOptimizeOptions,
      C.enable (B.disable o) = .ok o' ∧ C.has_set o' = true := by
  have hd := disable_eq B o
  refine ⟨rfl, by rw [hd], ?_, by rw [hd], by rw [hd], by rw [hd], by rw [hd], by rw [hd],
    by rw [hd], fun C => ?_⟩
  · rw [hd, has_set_eq]
    have := (capital_injective A A).2
    simpa using fun h : LayoutTransform.DEFAULT = A.capital => this h.symm
  · rw [hd]
    exact ⟨_, enable_of_default C _ rfl, by simp [has_set_eq]⟩

/-- Witness of C24: with NCHW4 selected, `disable_chwn4()` clears the selection
and `enable_nchw64()` then succeeds. -/
theorem C24_disable_clears_any_layout_witness :
    (disable_chwn4 { f16_io_comp := true, layout_transform := LayoutTransform.NCHW4 }) =
        { f16_io_comp := true } ∧
      enable_nchw64
          (disable_chwn4 { f16_io_comp := true, layout_transform := LayoutTransform.NCHW4 }) =
        .ok { f16_io_comp := true, layout_transform := LayoutTransform.NCHW64 } :=
  ⟨rfl,
    ((C24_disable_clears_any_layout LayoutFormat.nchw4 LayoutFormat.chwn4
      { f16_io_comp := true, layout_transform := LayoutTransform.NCHW4 } rfl).2.2.2.2.2.2.2.2.2
      LayoutFormat.nchw64).elim fun _ _ => rfl⟩

/-- C25: `is_empty_allowed()` does not depend on the `shape` and
`nr_direct_comp_req` counters; every receiver info with `dev_value`,
`host_value` and `allow_empty_value` all zero allows an empty var, in particular
the default-constructed one and a var read only for its shape. -/
theorem C25_shape_readers_irrelevant (v : VarReceiverInfo) :
    (∀ s n : Nat,
      VarReceiverInfo.is_empty_allowed { v with shape := s, nr_direct_comp_req := n } =
        v.is_empty_allowed) ∧
    (v.dev_value = 0 → v.host_value = 0 → v.allow_empty_value = 0 →
      v.is_empty_allowed = true) ∧
    VarReceiverInfo.is_empty_allowed {} = true ∧
    (∀ s n : Nat,
      VarReceiverInfo.is_empty_allowed { shape := s, nr_direct_comp_req := n } = true) := by
  refine ⟨fun _ _ => rfl, fun hd hh ha => ?_, rfl, fun _ _ => rfl⟩
  simp [VarReceiverInfo.is_empty_allowed, hd, hh, ha]

/-- Witness of C25: a var with three shape readers and one direct request. -/
theorem C25_shape_readers_irrelevant_witness :
    VarReceiverInfo.is_empty_allowed { shape := 3, nr_direct_comp_req := 1 } = true :=
  (C25_shape_readers_irrelevant { shape := 3, nr_direct_comp_req := 1 }).2.1 rfl rfl rfl

/-- C26: with float16 support enabled, `is_compatible<T>()` on a float16 or
bfloat16 dtype checks the size only: it is true exactly when
`sizeof(decay_t<T>)` is 2, so it accepts `int16_t` and `uint16_t` alike and
rejects `float`, whereas on the uint16 dtype `is_compatible<int16_t>()` is
false. -/
theorem C26_float16_checks_size_only (T : custom.QualType) :
    (custom.DType.is_compatible false { enumv := custom.DTypeEnum.float16 } T = true ↔
      custom.sizeof (custom.decay T) = 2) ∧
    (custom.DType.is_compatible false { enumv := custom.DTypeEnum.bfloat16 } T = true ↔
      custom.sizeof (custom.decay T) = 2) ∧
    custom.DType.is_compatible false { enumv := custom.DTypeEnum.float16 }
      { base := custom.CType.int16_t } = true ∧
    custom.DType.is_compatible false { enumv := custom.DTypeEnum.float16 }
      { base := custom.CType.uint16_t } = true ∧
    custom.DType.is_compatible false { enumv := custom.DTypeEnum.float16 }
      { base := custom.CType.float } = false ∧
    custom.DType.is_compatible false { enumv := custom.DTypeEnum.bfloat16 }
      { base := custom.CType.int16_t } = true ∧
    custom.DType.is_compatible false { enumv := custom.DTypeEnum.bfloat16 }
      { base := custom.CType.uint16_t } = true ∧
    custom.DType.is_compatible false { enumv := custom.DTypeEnum.bfloat16 }
      { base := custom.CType.float } = false ∧
    custom.DType.is_compatible false { enumv := custom.DTypeEnum.uint16 }
      { base := custom.CType.int16_t } = false := by
  refine ⟨?_, ?_, rfl, rfl, rfl, rfl, rfl, rfl, rfl⟩
  · simp [custom.DType.is_compatible, custom.float16_t, custom.sizeof]
  · simp [custom.DType.is_compatible, custom.bfloat16_t, custom.sizeof]

/-- Outside the two half-precision enumerators `is_compatible<T>()` compares
the decayed type with the C type of the case label reached in the `switch`. -/
theorem is_compatible_eq_switch (d : Bool) (e : custom.DTypeEnum) (T : custom.QualType)
    (h16 : e ≠ custom.DTypeEnum.float16) (hb16 : e ≠ custom.DTypeEnum.bfloat16) :
    custom.DType.is_compatible d { enumv := e } T =
      match custom.switch_case d e with
      | some ctype => custom.is_same (custom.decay T) ctype
      | none => false := by
  simp [custom.DType.is_compatible, h16, hb16]

/-- C27: for every dtype enumerator other than float16 and bfloat16 and every C
type `T`, under either configuration, `is_compatible<T>()` is true exactly when
`decay_t<T>` is the C type the table associates with the enumerator; the result
ignores the const and reference qualifiers of `T`; and every declared enumerator
reaches a case label of the `switch`, never the `default` branch. -/
theorem C27_is_compatible_exact_type (d : Bool) (T : custom.QualType) :
    (custom.DType.is_compatible d { enumv := custom.DTypeEnum.float32 } T = true ↔
      custom.decay T = custom.CType.float) ∧
    (custom.DType.is_compatible d { enumv := custom.DTypeEnum.uint8 } T = true ↔
      custom.decay T = custom.CType.uint8_t) ∧
    (custom.DType.is_compatible d { enumv := custom.DTypeEnum.int8 } T = true ↔
      custom.decay T = custom.CType.int8_t) ∧
    (custom.DType.is_compatible d { enumv := custom.DTypeEnum.int16 } T = true ↔
      custom.decay T = custom.CType.int16_t) ∧
    (custom.DType.is_compatible d { enumv := custom.DTypeEnum.int32 } T = true ↔
      custom.decay T = custom.CType.int32_t) ∧
    (custom.DType.is_compatible d { enumv := custom.DTypeEnum.uint16 } T = true ↔
      custom.decay T = custom.CType.uint16_t) ∧
    (custom.DType.is_compatible d { enumv := custom.DTypeEnum.quint8 } T = true ↔
      custom.decay T = custom.CType.uint8_t) ∧
    (custom.DType.is_compatible d { enumv := custom.DTypeEnum.qint32 } T = true ↔
      custom.decay T = custom.CType.int32_t) ∧
    (custom.DType.is_compatible d { enumv := custom.DTypeEnum.qint8 } T = true ↔
      custom.decay T = custom.CType.int8_t) ∧
    (custom.DType.is_compatible d { enumv := custom.DTypeEnum.qint16 } T = true ↔
      custom.decay T = custom.CType.int16_t) ∧
    (∀ (e : custom.DTypeEnum) (c r : Bool),
      custom.DType.is_compatible d { enumv := e }
          { base := T.base, is_const := c, is_reference := r } =
        custom.DType.is_compatible d { enumv := e } T) ∧
    (∀ e : custom.DTypeEnum, e.declared d = true → (custom.switch_case d e).isSome = true) := by
  have hsw : ∀ (e : custom.DTypeEnum) (c : custom.CType),
      e ≠ custom.DTypeEnum.float16 → e ≠ custom.DTypeEnum.bfloat16 →
      custom.switch_case d e = some c →
      (custom.DType.is_compatible d { enumv := e } T = true ↔ custom.decay T = c) := by
    intro e c h16 hb16 hs
    rw [is_compatible_eq_switch d e T h16 hb16, hs]
    simp [custom.is_same]
  refine ⟨?_, ?_, ?_, ?_, ?_, ?_, ?_, ?_, ?_, ?_, fun e c r => rfl, ?_⟩
  · exact hsw _ _ (by decide) (by decide) (by cases d <;> rfl)
  · exact hsw _ _ (by decide) (by decide) (by cases d <;> rfl)
  · exact hsw _ _ (by decide) (by decide) (by cases d <;> rfl)
  · exact hsw _ _ (by decide) (by decide) (by cases d <;> rfl)
  · exact hsw _ _ (by decide) (by decide) (by cases d <;> rfl)
  · exact hsw _ _ (by decide) (by decide) (by cases d <;> rfl)
  · exact hsw _ _ (by decide) (by decide) (by cases d <;> rfl)
  · exact hsw _ _ (by decide) (by decide) (by cases d <;> rfl)
  · exact hsw _ _ (by decide) (by decide) (by cases d <;> rfl)
  · exact hsw _ _ (by decide) (by decide) (by cases d <;> rfl)
  · intro e he
    cases d <;> cases e <;> first
      | rfl
      | exact absurd he (by decide)

/-- Witness of C27: with float16 support enabled the enumerator `qint8` is
declared and reaches a case label. -/
theorem C27_is_compatible_exact_type_witness :
    custom.DTypeEnum.declared false custom.DTypeEnum.qint8 = true ∧
      (custom.switch_case false custom.DTypeEnum.qint8).isSome = true :=
  ⟨rfl, (C27_is_compatible_exact_type false { base := custom.CType.int8_t }).2.2.2.2.2.2.2.2.2.2.2
    custom.DTypeEnum.qint8 rfl⟩

/-- C28: `Tensor::data<T>()` fails its assertion exactly when the dtype is not
compatible with `T`; `Tensor::accessor<T, N>()` fails exactly when `N` differs
from the number of dimensions, or `N` is 0, or the dtype is not compatible with
`T`; otherwise the accessor is built from the typed data pointer, the raw shape
and the raw strides; the const overloads fail and succeed on the same inputs. -/
theorem C28_tensor_data_and_accessor (d : Bool) (t : custom.Tensor) (T : custom.QualType)
    (N : Nat) :
    ((∃ e, t.data_as d T = .error e) ↔ t.dtype.is_compatible d T = false) ∧
    (t.dtype.is_compatible d T = true →
      t.data_as d T = .ok { address := t.data, pointee := T }) ∧
    ((∃ e, t.accessor d T N = .error e) ↔
      (N ≠ t.shape.length ∨ N = 0 ∨ t.dtype.is_compatible d T = false)) ∧
    (N = t.shape.length → N ≠ 0 → t.dtype.is_compatible d T = true →
      t.accessor d T N =
        .ok { T := T, N := N, ptr := { address := t.data, pointee := T },
              sizes := t.shape, strides := t.strides_raw }) ∧
    ((∃ e, t.data_as_const d T = .error e) ↔ (∃ e, t.data_as d T = .error e)) ∧
    ((∃ e, t.accessor_const d T N = .error e) ↔ (∃ e, t.accessor d T N = .error e)) ∧
    t.accessor_const d T N = t.accessor d T N := by
  have hdata_t : t.dtype.is_compatible d T = true →
      t.data_as d T = .ok { address := t.data, pointee := T } := by
    intro hc
    simp [custom.Tensor.data_as, custom.custom_assert, hc, bind, Except.bind, pure, Except.pure]
  have hdata_f : t.dtype.is_compatible d T = false →
      t.data_as d T = .error custom.CustomError.assert_failed := by
    intro hc
    simp [custom.Tensor.data_as, custom.custom_assert, hc, bind, Except.bind]
  have hacc_ok : N = t.shape.length → N ≠ 0 → t.dtype.is_compatible d T = true →
      t.accessor d T N =
        .ok { T := T, N := N, ptr := { address := t.data, pointee := T },
              sizes := t.shape, strides := t.strides_raw } := by
    intro h1 h2 h3
    have h2' : 0 < N := Nat.pos_of_ne_zero h2
    have hb : (N == t.shape.length) = true := by simp [h1]
    simp only [custom.Tensor.accessor, custom.custom_assert, hb, h2', hdata_t h3, bind,
      Except.bind, pure, Except.pure, if_true, gt_iff_lt, decide_True]
  have hacc_err : (N ≠ t.shape.length ∨ N = 0 ∨ t.dtype.is_compatible d T = false) →
      t.accessor d T N = .error custom.CustomError.assert_failed := by
    intro h
    by_cases h1 : N = t.shape.length
    · have hb : (N == t.shape.length) = true := by simp [h1]
      by_cases h2 : N = 0
      · have hb2 : decide (N > 0) = false := by simp [h2]
        simp only [custom.Tensor.accessor, custom.custom_assert, hb, hb2, bind, Except.bind,
          if_true, Bool.false_eq_true, if_false]
      · have hb2 : decide (N > 0) = true := by simpa using Nat.pos_of_ne_zero h2
        have h3 : t.dtype.is_compatible d T = false := by
          rcases h with h | h | h
          · exact absurd h1 h
          · exact absurd h h2
          · exact h
        simp only [custom.Tensor.accessor, custom.custom_assert, hb, hb2, hdata_f h3, bind,
          Except.bind, if_true]
    · have hb : (N == t.shape.length) = false := by simpa using h1
      simp only [custom.Tensor.accessor, custom.custom_assert, hb, bind, Except.bind,
        Bool.false_eq_true, if_false]
  refine ⟨?_, hdata_t, ?_, hacc_ok, ?_, Iff.rfl, rfl⟩
  · constructor
    · rintro ⟨e, he⟩
      cases hc : t.dtype.is_compatible d T
      · rfl
      · rw [hdata_t hc] at he; cases he
    · intro hc
      exact ⟨_, hdata_f hc⟩
  · constructor
    · rintro ⟨e, he⟩
      by_contra hcon
      simp only [not_or, not_not, Bool.not_eq_false] at hcon
      rw [hacc_ok hcon.1 hcon.2.1 hcon.2.2] at he
      cases he
    · intro h
      exact ⟨_, hacc_err h⟩
  · cases hc : t.dtype.is_compatible d T
    · have h1 : t.data_as_const d T = .error custom.CustomError.assert_failed := by
        simp only [custom.Tensor.data_as_const, hdata_f hc, bind, Except.bind]
      exact ⟨fun _ => ⟨_, hdata_f hc⟩, fun _ => ⟨_, h1⟩⟩
    · constructor
      · rintro ⟨e, he⟩
        simp only [custom.Tensor.data_as_const, hdata_t hc, bind, Except.bind, pure,
          Except.pure] at he
        cases he
      · rintro ⟨e, he⟩
        rw [hdata_t hc] at he
        cases he

/-- Witness of C28: a two-dimensional int32 tensor read through `int32_t`. -/
theorem C28_tensor_data_and_accessor_witness :
    custom.Tensor.accessor false
        { dtype := { enumv := custom.DTypeEnum.int32 }, shape := [2, 3], strides_raw := [3, 1],
          data := 4096 }
        { base := custom.CType.int32_t } 2 =
      .ok { T := { base := custom.CType.int32_t }, N := 2,
            ptr := { address := 4096, pointee := { base := custom.CType.int32_t } },
            sizes := [2, 3], strides := [3, 1] } :=
  (C28_tensor_data_and_accessor false
    { dtype := { enumv := custom.DTypeEnum.int32 }, shape := [2, 3], strides_raw := [3, 1],
      data := 4096 }
    { base := custom.CType.int32_t } 2).2.2.2.1 rfl (by decide) rfl

/-- In the even lanes the SSE kernel agrees with the scalar kernel; the odd
lanes receive the high half of the 64-bit product of the lane before. -/
theorem sse_int32_lanes (a0 a1 a2 a3 b0 b1 b2 b3 c0 c1 c2 c3 : Int) :
    megdnn.x86.FuseMulAdd3Op.SSE4_2_dt_int32 [a0, a1, a2, a3] [b0, b1, b2, b3]
        [c0, c1, c2, c3] =
      [megdnn.x86.FuseMulAdd3OpBase a0 b0 c0,
       megdnn.x86.to_int32 (c1 + megdnn.x86.to_int32 (a0 * b0 / 4294967296)),
       megdnn.x86.FuseMulAdd3OpBase a2 b2 c2,
       megdnn.x86.to_int32 (c3 + megdnn.x86.to_int32 (a2 * b2 / 4294967296))] := by
  simp [megdnn.x86.FuseMulAdd3Op.SSE4_2_dt_int32, megdnn.x86._mm_mul_epi32,
    megdnn.x86._mm_add_epi32, megdnn.x86.mul_epi32, megdnn.x86.add_epi32,
    megdnn.x86.FuseMulAdd3OpBase, Int.add_comm]

/-- C22 fails on the code: on the inputs below the SSE4.2 and AVX2 kernels for
`dt_int32` differ from the scalar kernel in every odd lane, because
`_mm_mul_epi32` multiplies only the even lanes and stores 64-bit products. -/
theorem C22_simd_int32_differs_from_scalar :
    megdnn.x86.FuseMulAdd3Op.SSE4_2_dt_int32 [2, 3, 5, 7] [11, 13, 17, 19] [1, 1, 1, 1] =
      [23, 1, 86, 1] ∧
    megdnn.x86.scalar_lanes [2, 3, 5, 7] [11, 13, 17, 19] [1, 1, 1, 1] = [23, 40, 86, 134] ∧
    megdnn.x86.FuseMulAdd3Op.AVX2_dt_int32 [2, 3, 5, 7, 1, 2, 3, 4]
        [11, 13, 17, 19, 5, 6, 7, 8] [1, 1, 1, 1, 0, 0, 0, 0] =
      [23, 1, 86, 1, 5, 0, 21, 0] ∧
    megdnn.x86.scalar_lanes [2, 3, 5, 7, 1, 2, 3, 4] [11, 13, 17, 19, 5, 6, 7, 8]
        [1, 1, 1, 1, 0, 0, 0, 0] =
      [23, 40, 86, 134, 5, 12, 21, 32] := by
  refine ⟨by decide, by decide, by decide, by decide⟩

/-- A visitor that keeps the first element satisfying a condition computes
`List.find?`. -/
theorem foldl_first_eq_find (p : Nat → Bool) (l : List Nat) (init : Option Nat) :
    l.foldl (fun found x => if found.isNone && p x then some x else found) init =
      match init with
      | some a => some a
      | none => l.find? p := by
  induction l generalizing init with
  | nil => cases init <;> rfl
  | cons a rest ih =>
    simp only [List.foldl_cons]
    rw [ih]
    cases init with
    | some b => simp
    | none =>
      by_cases ha : p a = true
      · simp [ha]
      · simp [ha]

/-- The helper `find_opr_num` counts the visited operators of type `T`. -/
theorem find_opr_num_eq (g : OprStore) (T : Nat) (endpoint : VarNode) :
    find_opr_num g T endpoint =
      ((DepOprIter.order g endpoint.owner_opr).filter (g.has_type T)).length := by
  have hcb : (fun (opr_num : Nat) (opr : Nat) =>
      match g.oprs[opr]? with
      | some o => if o.same_type T then opr_num + 1 else opr_num
      | none => opr_num) = fun n x => if g.has_type T x then n + 1 else n := by
    funext n x
    unfold OprStore.has_type
    cases g.oprs[x]? with
    | none => simp
    | some o => simp
  unfold find_opr_num DepOprIter.add
  rw [hcb, foldl_count_eq, Nat.zero_add]

/-- The value `found` of `find_opr<T>` after the traversal. -/
theorem find_opr_found (g : OprStore) (T : Nat) (dest : Nat) :
    DepOprIter.add
      (fun (found : Option Nat) opr =>
        match g.oprs[opr]? with
        | some o => if found.isNone && o.same_type T then some opr else found
        | none => found)
      none g dest = (DepOprIter.order g dest).find? (g.has_type T) := by
  have hcb : (fun (found : Option Nat) (opr : Nat) =>
      match g.oprs[opr]? with
      | some o => if found.isNone && o.same_type T then some opr else found
      | none => found) =
      fun found x => if found.isNone && g.has_type T x then some x else found := by
    funext found x
    unfold OprStore.has_type
    cases g.oprs[x]? with
    | none => simp
    | some o => rfl
  unfold DepOprIter.add
  rw [hcb, foldl_first_eq_find]

/-- The value `found` of the named `find_opr<T>` after the traversal. -/
theorem find_opr_named_found (g : OprStore) (T : Nat) (node_name : String) (dest : Nat) :
    DepOprIter.add
      (fun (found : Option Nat) opr =>
        match g.oprs[opr]? with
        | some o =>
          if found.isNone && o.same_type T && o.name == node_name then some opr else found
        | none => found)
      none g dest = (DepOprIter.order g dest).find? (g.has_type_and_name T node_name) := by
  have hcb : (fun (found : Option Nat) (opr : Nat) =>
      match g.oprs[opr]? with
      | some o =>
        if found.isNone && o.same_type T && o.name == node_name then some opr else found
      | none => found) =
      fun found x =>
        if found.isNone && g.has_type_and_name T node_name x then some x else found := by
    funext found x
    unfold OprStore.has_type_and_name
    cases g.oprs[x]? with
    | none => simp
    | some o => simp [Bool.and_assoc]
  unfold DepOprIter.add
  rw [hcb, foldl_first_eq_find]

/-- The assertion and the return of the helpers, in terms of `found`. -/
theorem assert_found (found : Option Nat) :
    (do mgb_assert found.isSome; return found.getD 0 : Except MegBrainError Nat) =
      match found with
      | some o => .ok o
      | none => .error MegBrainError.AssertionError := by
  cases found <;> rfl

/-- First occurrence in a list: `find?` returns `o` exactly when `o` satisfies
the condition and nothing before it does. -/
theorem find_eq_some_iff_first (p : Nat → Bool) (l : List Nat) (o : Nat) :
    l.find? p = some o ↔
      ∃ pre post, l = pre ++ o :: post ∧ p o = true ∧ ∀ x ∈ pre, p x = false := by
  rw [List.find?_eq_some]
  constructor
  · rintro ⟨ho, pre, post, hl, hpre⟩
    exact ⟨pre, post, hl, ho, fun x hx => by simpa using hpre x hx⟩
  · rintro ⟨pre, post, hl, ho, hpre⟩
    exact ⟨ho, pre, post, hl, fun x hx => by simpa using hpre x hx⟩

/-- C29: `find_opr<T>(endpoint)` returns the first operator of type `T` in the
visiting order of `DepOprIter` and fails its assertion exactly when
`find_opr_num<T>(endpoint)` is 0; the named overload returns the first visited
operator that has both type `T` and the given name, and fails exactly when no
visited operator satisfies both. -/
theorem C29_find_opr_first (g : OprStore) (T : Nat) (endpoint : VarNode)
    (node_name : String) :
    (∀ o : Nat, find_opr g T endpoint = .ok o ↔
      ∃ pre post, DepOprIter.order g endpoint.owner_opr = pre ++ o :: post ∧
        g.has_type T o = true ∧ ∀ x ∈ pre, g.has_type T x = false) ∧
    ((∃ e, find_opr g T endpoint = .error e) ↔ find_opr_num g T endpoint = 0) ∧
    (∀ o : Nat, find_opr_named g T endpoint node_name = .ok o ↔
      ∃ pre post, DepOprIter.order g endpoint.owner_opr = pre ++ o :: post ∧
        g.has_type_and_name T node_name o = true ∧
        ∀ x ∈ pre, g.has_type_and_name T node_name x = false) ∧
    ((∃ e, find_opr_named g T endpoint node_name = .error e) ↔
      ∀ x ∈ DepOprIter.order g endpoint.owner_opr,
        g.has_type_and_name T node_name x = false) := by
  have h1 : find_opr g T endpoint =
      match (DepOprIter.order g endpoint.owner_opr).find? (g.has_type T) with
      | some o => .ok o
      | none => .error MegBrainError.AssertionError := by
    unfold find_opr
    rw [find_opr_found]
    exact assert_found _
  have h2 : find_opr_named g T endpoint node_name =
      match (DepOprIter.order g endpoint.owner_opr).find?
          (g.has_type_and_name T node_name) with
      | some o => .ok o
      | none => .error MegBrainError.AssertionError := by
    unfold find_opr_named
    rw [find_opr_named_found]
    exact assert_found _
  have hok : ∀ (p : Nat → Bool) (l : List Nat) (o : Nat),
      (match l.find? p with
        | some o => (.ok o : Except MegBrainError Nat)
        | none => .error MegBrainError.AssertionError) = .ok o ↔
      ∃ pre post, l = pre ++ o :: post ∧ p o = true ∧ ∀ x ∈ pre, p x = false := by
    intro p l o
    rw [← find_eq_some_iff_first]
    cases l.find? p with
    | none => simp
    | some a => simp
  have herr : ∀ (p : Nat → Bool) (l : List Nat),
      (∃ e, (match l.find? p with
        | some o => (.ok o : Except MegBrainError Nat)
        | none => .error MegBrainError.AssertionError) = .error e) ↔
      ∀ x ∈ l, p x = false := by
    intro p l
    cases hf : l.find? p with
    | none =>
      have := List.find?_eq_none.mp hf
      exact ⟨fun _ x hx => by simpa using this x hx, fun _ => ⟨_, rfl⟩⟩
    | some a =>
      have ha := List.find?_some hf
      have hmem := List.mem_of_find?_eq_some hf
      constructor
      · rintro ⟨e, he⟩; cases he
      · intro h
        rw [h a hmem] at ha
        exact absurd ha (by simp)
  refine ⟨fun o => by rw [h1]; exact hok _ _ o, ?_, fun o => by rw [h2]; exact hok _ _ o,
    by rw [h2]; exact herr _ _⟩
  rw [h1, herr, find_opr_num_eq, List.length_eq_zero, List.filter_eq_nil_iff]
  exact ⟨fun h x hx => by simp [h x hx], fun h x hx => by simpa using h x hx⟩

/-- Witness of C29: in a store where operators 2 and 3 have type 2, the first
one visited from operator 4 is operator 2. -/
theorem C29_find_opr_first_witness :
    find_opr
        { oprs := [{ type := 1 }, { type := 1, param := 1 },
          { type := 2, name := "a", input := [{ owner_opr := 0 }, { owner_opr := 1 }] },
          { type := 2, name := "b", input := [{ owner_opr := 2 }, { owner_opr := 0 }] },
          { type := 3, input := [{ owner_opr := 3 }, { owner_opr := 2 }] }] }
        2 { owner_opr := 4 } = .ok 2 :=
  ((C29_find_opr_first
    { oprs := [{ type := 1 }, { type := 1, param := 1 },
      { type := 2, name := "a", input := [{ owner_opr := 0 }, { owner_opr := 1 }] },
      { type := 2, name := "b", input := [{ owner_opr := 2 }, { owner_opr := 0 }] },
      { type := 3, input := [{ owner_opr := 3 }, { owner_opr := 2 }] }] }
    2 { owner_opr := 4 } "b").1 2).mpr ⟨[0, 1], [3, 4], rfl, rfl, by decide⟩

/-- Overlap of liveness intervals is symmetric. -/
theorem liveness_overlap_comm (a b : StaticVarReq) :
    liveness_overlap a b = liveness_overlap b a := by
  simp [liveness_overlap, Bool.and_comm]

/-- Overlap of byte ranges is symmetric. -/
theorem range_overlap_comm (a b : StaticVarPlan) : range_overlap a b = range_overlap b a := by
  simp [range_overlap, Nat.max_comm, Nat.min_comm]

/-- Every placed range ends at or below the top of the arena. -/
theorem le_arena_size (plan : List StaticVarPlan) :
    ∀ w ∈ plan, w.offset + w.var.size ≤ arena_size plan := by
  have hgen : ∀ (l : List StaticVarPlan) (init : Nat),
      init ≤ l.foldl (fun top w => max top (w.offset + w.var.size)) init ∧
      ∀ w ∈ l, w.offset + w.var.size ≤
        l.foldl (fun top w => max top (w.offset + w.var.size)) init := by
    intro l
    induction l with
    | nil => intro init; exact ⟨Nat.le_refl _, fun w hw => by simp at hw⟩
    | cons a rest ih =>
      intro init
      obtain ⟨h1, h2⟩ := ih (max init (a.offset + a.var.size))
      simp only [List.foldl_cons]
      refine ⟨Nat.le_trans (Nat.le_max_left _ _) h1, fun w hw => ?_⟩
      rcases List.mem_cons.mp hw with rfl | hmem
      · exact Nat.le_trans (Nat.le_max_right _ _) h1
      · exact h2 w hmem
  exact (hgen plan 0).2

/-- A variable placed at the top of the arena shares no byte with a placed one. -/
theorem can_place_arena_size (plan : List StaticVarPlan) (v : StaticVarReq) :
    can_place plan v (arena_size plan) = true := by
  simp only [can_place, List.all_eq_true, Bool.or_eq_true, Bool.not_eq_true']
  intro w hw
  right
  have := le_arena_size plan w hw
  simp only [range_overlap, decide_eq_false_iff_not, not_lt]
  omega

/-- The offset chosen by the reuse algorithm is one at which the variable can
be placed. -/
theorem can_place_reuse_offset (plan : List StaticVarPlan) (v : StaticVarReq) :
    can_place plan v (reuse_offset plan v) = true := by
  unfold reuse_offset
  cases hf : (0 :: plan.map fun w => w.offset + w.var.size).find? (can_place plan v) with
  | none => exact can_place_arena_size plan v
  | some o => exact List.find?_some hf

/-- Every plan produced by the planner keeps the disjointness invariant between
an earlier and a later entry, and plans the variables in their order. -/
theorem plan_static_alloc_pairwise (seq_opt : ComputingGraph.Options.SeqOpt)
    (vars : List StaticVarReq) :
    (plan_static_alloc seq_opt vars).Pairwise
        (fun a b => range_overlap a b = true → liveness_overlap a.var b.var = false) ∧
      (plan_static_alloc seq_opt vars).map StaticVarPlan.var = vars := by
  have hgen : ∀ (vs : List StaticVarReq) (plan : List StaticVarPlan),
      plan.Pairwise
        (fun a b => range_overlap a b = true → liveness_overlap a.var b.var = false) →
      (vs.foldl
        (fun plan v =>
          plan ++ [{ var := v,
                     offset := if seq_opt.enable_mem_reuse_alloc then reuse_offset plan v
                       else arena_size plan }]) plan).Pairwise
        (fun a b => range_overlap a b = true → liveness_overlap a.var b.var = false) ∧
      (vs.foldl
        (fun plan v =>
          plan ++ [{ var := v,
                     offset := if seq_opt.enable_mem_reuse_alloc then reuse_offset plan v
                       else arena_size plan }]) plan).map StaticVarPlan.var =
        plan.map StaticVarPlan.var ++ vs := by
    intro vs
    induction vs with
    | nil => intro plan hp; exact ⟨hp, by simp⟩
    | cons v rest ih =>
      intro plan hp
      simp only [List.foldl_cons]
      have hplace : can_place plan v
          (if seq_opt.enable_mem_reuse_alloc then reuse_offset plan v
            else arena_size plan) = true := by
        cases seq_opt.enable_mem_reuse_alloc
        · exact can_place_arena_size plan v
        · exact can_place_reuse_offset plan v
      have hnew : (plan ++ [StaticVarPlan.mk v
          (if seq_opt.enable_mem_reuse_alloc then reuse_offset plan v
            else arena_size plan)]).Pairwise
          (fun a b => range_overlap a b = true → liveness_overlap a.var b.var = false) := by
        rw [List.pairwise_append]
        refine ⟨hp, by simp, fun a ha b hb => ?_⟩
        simp only [List.mem_singleton] at hb
        subst hb
        intro hr
        have := (List.all_eq_true.mp hplace) a ha
        rw [range_overlap_comm] at hr
        rw [liveness_overlap_comm]
        simpa [hr] using this
      obtain ⟨h1, h2⟩ := ih _ hnew
      exact ⟨h1, by rw [h2]; simp⟩
  have := hgen vars [] List.Pairwise.nil
  exact ⟨this.1, by simpa using this.2⟩

/-- C21: memory-plan disjointness. In every static allocation plan produced for
the variables of a compiled operator sequence, with or without memory reuse,
every variable is planned, and any two distinct statically allocated variables
whose byte ranges in the arena overlap have liveness intervals that do not
overlap. -/
theorem C21_static_plan_disjoint (seq_opt : ComputingGraph.Options.SeqOpt)
    (vars : List StaticVarReq) :
    (plan_static_alloc seq_opt vars).map StaticVarPlan.var = vars ∧
    ∀ (i j : Nat) (a b : StaticVarPlan), i ≠ j →
      (plan_static_alloc seq_opt vars)[i]? = some a →
      (plan_static_alloc seq_opt vars)[j]? = some b →
      range_overlap a b = true → liveness_overlap a.var b.var = false := by
  obtain ⟨hpw, hmap⟩ := plan_static_alloc_pairwise seq_opt vars
  refine ⟨hmap, fun i j a b hij hi hj hr => ?_⟩
  have hget := List.pairwise_iff_getElem.mp hpw
  obtain ⟨hi', rfl⟩ := List.getElem?_eq_some_iff.mp hi
  obtain ⟨hj', rfl⟩ := List.getElem?_eq_some_iff.mp hj
  rcases Nat.lt_or_gt_of_ne hij with hlt | hgt
  · exact hget i j hi' hj' hlt hr
  · rw [liveness_overlap_comm]
    exact hget j i hj' hi' hgt (by rw [range_overlap_comm]; exact hr)

/-- Witness of C21: three variables under the default options; the third reuses
the bytes of the first, whose lifetime has ended. -/
theorem C21_static_plan_disjoint_witness :
    (plan_static_alloc {} [{ size := 100, first := 0, last := 2 },
        { size := 50, first := 1, last := 3 }, { size := 100, first := 3, last := 5 }])[2]? =
      some { var := { size := 100, first := 3, last := 5 }, offset := 0 } ∧
    liveness_overlap { size := 100, first := 0, last := 2 }
      { size := 100, first := 3, last := 5 } = false :=
  ⟨by decide,
    (C21_static_plan_disjoint {} [{ size := 100, first := 0, last := 2 },
        { size := 50, first := 1, last := 3 }, { size := 100, first := 3, last := 5 }]).2
      0 2 { var := { size := 100, first := 0, last := 2 }, offset := 0 }
      { var := { size := 100, first := 3, last := 5 }, offset := 0 }
      (by decide) (by decide) (by decide) (by decide)⟩
